import Mathlib

/-!
Verification development for an automated upbit trading bot.

Shallow embedding of the risk manager (`src/risk_management/risk_manager.py`),
the combined strategy (`src/strategies/combined_strategy.py`) and the
technical-indicator pipeline (`src/indicators/technical.py`), together with
theorems checking the specification's claims about them.

Conventions used throughout:
* Python floats are modelled as rationals (`ℚ`); a pandas `NaN` cell is
  modelled as `none` in `Option ℚ`.
* A dictionary key that the Python code stores only conditionally is an
  `Option`-valued field; a `dict` is an association list with unique keys,
  assignment is `upsertPos` and `del` is `List.eraseP`.
* A collaborator call that may return an absent value is a function into
  `Option`; an escaping Python exception is `none` / `Except.error ()`.
-/

namespace Upbit

/-- Risk-management configuration (the `config['risk_management']` section). -/
structure RiskConfig where
  stopLoss : ℚ
  takeProfit : ℚ
  trailingStop : ℚ
  useTrailingStop : Bool
deriving DecidableEq

/-- One ledger entry of `RiskManager.positions`.  Keys that the Python code
stores in the position dict only conditionally are `Option`-valued. -/
structure Position where
  currency : String
  quantity : ℚ
  entry_price : Option ℚ
  entry_time : ℕ
  current_price : ℚ
  highest_price : Option ℚ
  lowest_price : Option ℚ
  trailing_stop_price : Option ℚ
deriving DecidableEq

/-- `RiskManager._update_trailing_stop`: initialize the trailing stop if the
key is absent, otherwise raise it only when the recomputed stop is higher. -/
def updateTrailingStop (cfg : RiskConfig) (pos : Position) (p : ℚ) : Position :=
  match pos.trailing_stop_price with
  | none => { pos with trailing_stop_price := some (p * (1 - cfg.trailingStop)) }
  | some t =>
      let n := p * (1 - cfg.trailingStop)
      if n > t then { pos with trailing_stop_price := some n } else pos

/-- The quantity/current-price/extrema refresh of an existing position
(the existing-ticker branch of `RiskManager.update_positions`, before the
trailing-stop update).  The Python code mutates the keys one after another;
since each statement touches a distinct key, the update is given here field
by field: quantity and current price are overwritten, `entry_price` is set
to the current price only if absent, and the extrema keys are set when
absent or beaten by the current price. -/
def refreshCore (old : Position) (bal p : ℚ) : Position :=
  { old with
    quantity := bal
    current_price := p
    entry_price := some (old.entry_price.getD p)
    highest_price := some (match old.highest_price with
      | none => p
      | some hp => if p > hp then p else hp)
    lowest_price := some (match old.lowest_price with
      | none => p
      | some lp => if p < lp then p else lp) }

/-- Existing-ticker branch of `RiskManager.update_positions` for one cycle:
refresh quantity, price and extrema, then ratchet the trailing stop when
`use_trailing_stop` is configured. -/
def updateExistingPosition (cfg : RiskConfig) (old : Position) (bal p : ℚ) : Position :=
  let pos := refreshCore old bal p
  if cfg.useTrailingStop then updateTrailingStop cfg pos p else pos

/-- New-ticker branch of `RiskManager.update_positions`: a fresh position with
entry price and both extrema initialized to the first observed price. -/
def newPosition (cfg : RiskConfig) (cur : String) (bal p : ℚ) (now : ℕ) : Position :=
  { currency := cur, quantity := bal, entry_price := some p, entry_time := now,
    current_price := p, highest_price := some p, lowest_price := some p,
    trailing_stop_price :=
      if cfg.useTrailingStop then some (p * (1 - cfg.trailingStop)) else none }

/-- The position ledger, `RiskManager.positions`: a dict keyed by ticker. -/
abbrev Ledger := List (String × Position)

/-- Dict read `positions.get(ticker)`. -/
def lookupPos (t : String) (l : Ledger) : Option Position :=
  (l.find? (fun kv => kv.1 = t)).map (fun kv => kv.2)

/-- Dict assignment `positions[ticker] = p`: replace the value in place if the
key exists, otherwise append. -/
def upsertPos (t : String) (p : Position) (l : Ledger) : Ledger :=
  if l.any (fun kv => kv.1 = t) then
    l.map (fun kv => if kv.1 = t then (t, p) else kv)
  else l ++ [(t, p)]

/-- One iteration of the balance loop in `RiskManager.update_positions`:
skip the cash currency, empty balances and failed price lookups (a price of 0
is falsy in Python and also skipped), then update or create the position.
`st` is the `old_positions` snapshot taken before the loop. -/
def updateStep (cfg : RiskConfig) (priceOf : String → Option ℚ) (now : ℕ)
    (st : Ledger) (acc : Ledger) (b : String × ℚ) : Ledger :=
  if b.1 = "KRW" then acc
  else if b.2 ≤ 0 then acc
  else
    let ticker := "KRW-" ++ b.1
    match priceOf ticker with
    | none => acc
    | some p =>
        if p = 0 then acc
        else
          match lookupPos ticker st with
          | some old => upsertPos ticker (updateExistingPosition cfg old b.2 p) acc
          | none => upsertPos ticker (newPosition cfg b.1 b.2 p now) acc

/-- `RiskManager.update_positions`.  `balances` is the collaborator's balance
list (`none` on failure; an empty list is falsy and also returns the old
ledger unchanged).  On success the ledger is rebuilt from scratch. -/
def updatePositions (cfg : RiskConfig) (priceOf : String → Option ℚ) (now : ℕ)
    (balances : Option (List (String × ℚ))) (st : Ledger) : Ledger :=
  match balances with
  | none => st
  | some [] => st
  | some bs => bs.foldl (updateStep cfg priceOf now st) []

/-- A risk action produced by `RiskManager._check_position_risk`.
`sellShare` models the `sell_ratio` entry of the `details` dict (present only
for the take-profit partial exit). -/
structure RiskAction where
  action : String
  reason : String
  sellShare : Option ℚ
deriving DecidableEq

/-- `RiskManager._check_position_risk`.  Returns `none` when the Python code
would raise (missing `entry_price`/`highest_price` key, or a zero entry price
making the profit computation divide by zero). -/
def checkPositionRisk (cfg : RiskConfig) (pos : Position) : Option RiskAction :=
  match pos.entry_price with
  | none => none
  | some ep =>
      if ep = 0 then none
      else
        let profit := (pos.current_price - ep) / ep
        if profit ≤ -cfg.stopLoss then some ⟨"sell", "stop_loss", none⟩
        else
          let takeProfitCheck : Option RiskAction :=
            if profit ≥ cfg.takeProfit then
              some ⟨"partial_sell", "take_profit", some (1/2)⟩
            else some ⟨"hold", "within_limits", none⟩
          if cfg.useTrailingStop then
            match pos.trailing_stop_price with
            | some tsp =>
                if pos.current_price ≤ tsp then
                  match pos.highest_price with
                  | none => none
                  | some _ => some ⟨"sell", "trailing_stop", none⟩
                else takeProfitCheck
            | none => takeProfitCheck
          else takeProfitCheck

/-- An order submission sent to the exchange collaborator. -/
structure Submission where
  side : String
  ticker : String
  amount : ℚ
deriving DecidableEq

/-- Result dict of `RiskManager._execute_risk_action`.  The hold branch of
`check_risk_limits` stores the raw risk action, which has no `success` key:
that is modelled by `success = none`. -/
structure RiskResult where
  success : Option Bool
  action : String
  reason : String
deriving DecidableEq

/-- `RiskManager._execute_risk_action`: submit the exit order and mutate the
ledger only on success (full exit deletes the entry, partial exit decrements
the quantity in place).  Returns the result dict, the ledger afterwards and
the list of order submissions attempted. -/
def executeRiskAction (sellO : String → ℚ → Option String) (ticker : String)
    (pos : Position) (st : Ledger) (ra : RiskAction) :
    RiskResult × Ledger × List Submission :=
  if ra.action = "sell" then
    let volume := pos.quantity
    match sellO ticker volume with
    | some _ =>
        (⟨some true, "sell", ra.reason⟩, st.eraseP (fun kv => kv.1 = ticker),
         [⟨"sell", ticker, volume⟩])
    | none => (⟨some false, "hold", ra.reason⟩, st, [⟨"sell", ticker, volume⟩])
  else if ra.action = "partial_sell" then
    let share := ra.sellShare.getD (1/2)
    let volume := pos.quantity * share
    match sellO ticker volume with
    | some _ =>
        (⟨some true, "partial_sell", ra.reason⟩,
         st.map (fun kv =>
           if kv.1 = ticker then (kv.1, { kv.2 with quantity := kv.2.quantity - volume })
           else kv),
         [⟨"sell", ticker, volume⟩])
    | none => (⟨some false, "hold", ra.reason⟩, st, [⟨"sell", ticker, volume⟩])
  else (⟨some true, "hold", ra.reason⟩, st, [])

/-- The `for ticker, position in self.positions.items()` loop of
`RiskManager.check_risk_limits`, with CPython's dict-iterator semantics: the
iterator records the dict's size at creation and every subsequent `next()`
call (including the final, exhausting one) raises `RuntimeError` if the size
changed.  The surrounding `try/except` turns that into a result whose
`actions` dict is empty, while mutations already made to the ledger persist.
The fourth component records whether the loop was aborted by an exception. -/
def riskLoop (cfg : RiskConfig) (sellO : String → ℚ → Option String) :
    List (String × Position) → ℕ → Ledger →
    List (String × RiskResult) → List Submission →
    List (String × RiskResult) × Ledger × List Submission × Bool
  | [], n0, st, acc, subs =>
      if st.length ≠ n0 then ([], st, subs, true) else (acc.reverse, st, subs, false)
  | (t, p) :: rest, n0, st, acc, subs =>
      if st.length ≠ n0 then ([], st, subs, true)
      else
        match checkPositionRisk cfg p with
        | none => ([], st, subs, true)
        | some ra =>
            if ra.action ≠ "hold" then
              let r := executeRiskAction sellO t p st ra
              riskLoop cfg sellO rest n0 r.2.1 ((t, r.1) :: acc) (subs ++ r.2.2)
            else
              riskLoop cfg sellO rest n0 st ((t, ⟨none, ra.action, ra.reason⟩) :: acc) subs

/-- `RiskManager.check_risk_limits` after the initial `update_positions`
refresh: evaluate every ledger entry and execute non-hold actions. -/
def checkRiskLimitsCore (cfg : RiskConfig) (sellO : String → ℚ → Option String)
    (st : Ledger) : List (String × RiskResult) × Ledger × List Submission × Bool :=
  riskLoop cfg sellO st st.length st [] []

/-! ### Frame lemmas about the position refresh -/

theorem refreshCore_trailing (old : Position) (bal p : ℚ) :
    (refreshCore old bal p).trailing_stop_price = old.trailing_stop_price := rfl

theorem refreshCore_entry_time (old : Position) (bal p : ℚ) :
    (refreshCore old bal p).entry_time = old.entry_time := rfl

theorem refreshCore_currency (old : Position) (bal p : ℚ) :
    (refreshCore old bal p).currency = old.currency := rfl

theorem refreshCore_entry_price (old : Position) (bal p : ℚ) :
    (refreshCore old bal p).entry_price = some (old.entry_price.getD p) := rfl

theorem updateTrailingStop_entry_time (cfg : RiskConfig) (pos : Position) (p : ℚ) :
    (updateTrailingStop cfg pos p).entry_time = pos.entry_time := by
  unfold updateTrailingStop
  cases pos.trailing_stop_price
  · rfl
  · split <;> first | rfl | (dsimp only; split <;> rfl)

theorem updateTrailingStop_currency (cfg : RiskConfig) (pos : Position) (p : ℚ) :
    (updateTrailingStop cfg pos p).currency = pos.currency := by
  unfold updateTrailingStop
  cases pos.trailing_stop_price
  · rfl
  · split <;> first | rfl | (dsimp only; split <;> rfl)

theorem updateTrailingStop_entry_price (cfg : RiskConfig) (pos : Position) (p : ℚ) :
    (updateTrailingStop cfg pos p).entry_price = pos.entry_price := by
  unfold updateTrailingStop
  cases pos.trailing_stop_price
  · rfl
  · split <;> first | rfl | (dsimp only; split <;> rfl)

theorem updateExisting_entry_time (cfg : RiskConfig) (old : Position) (bal p : ℚ) :
    (updateExistingPosition cfg old bal p).entry_time = old.entry_time := by
  unfold updateExistingPosition
  split <;> simp [updateTrailingStop_entry_time, refreshCore_entry_time]

theorem updateExisting_currency (cfg : RiskConfig) (old : Position) (bal p : ℚ) :
    (updateExistingPosition cfg old bal p).currency = old.currency := by
  unfold updateExistingPosition
  split <;> simp [updateTrailingStop_currency, refreshCore_currency]

theorem updateExisting_entry_price (cfg : RiskConfig) (old : Position) (bal p : ℚ) :
    (updateExistingPosition cfg old bal p).entry_price = some (old.entry_price.getD p) := by
  unfold updateExistingPosition
  split <;> simp [updateTrailingStop_entry_price, refreshCore_entry_price]

theorem updateExisting_trailing (cfg : RiskConfig) (old : Position) (t : ℚ) (bal p : ℚ)
    (hu : cfg.useTrailingStop = true) (h : old.trailing_stop_price = some t) :
    (updateExistingPosition cfg old bal p).trailing_stop_price
      = some (max t (p * (1 - cfg.trailingStop))) := by
  unfold updateExistingPosition updateTrailingStop
  rw [hu]
  simp only [if_true, refreshCore_trailing, h]
  rcases lt_or_ge t (p * (1 - cfg.trailingStop)) with hlt | hge
  · rw [if_pos hlt, max_eq_right hlt.le]
  · rw [if_neg (not_lt.mpr hge), max_eq_left hge, refreshCore_trailing, h]

/-! ### Claim C1: exit priority of `_check_position_risk` -/

/-- C1: for every position the risk engine evaluates, the exit decision
follows the fixed priority stop-loss > trailing-stop > take-profit > hold,
first match winning; in particular when all three trigger conditions hold
simultaneously the stop-loss full exit is applied, and the take-profit branch
is a partial exit whose submitted volume is 50% of the held quantity. -/
theorem C1_exit_priority (cfg : RiskConfig) (pos : Position) (ep : ℚ)
    (hep : pos.entry_price = some ep) (hep0 : ep ≠ 0) :
    ((pos.current_price - ep) / ep ≤ -cfg.stopLoss →
        checkPositionRisk cfg pos = some ⟨"sell", "stop_loss", none⟩) ∧
    (¬ (pos.current_price - ep) / ep ≤ -cfg.stopLoss → cfg.useTrailingStop = true →
        ∀ tsp hp, pos.trailing_stop_price = some tsp → pos.highest_price = some hp →
        pos.current_price ≤ tsp →
        checkPositionRisk cfg pos = some ⟨"sell", "trailing_stop", none⟩) ∧
    (¬ (pos.current_price - ep) / ep ≤ -cfg.stopLoss →
        (cfg.useTrailingStop = true →
          ∀ tsp, pos.trailing_stop_price = some tsp → ¬ pos.current_price ≤ tsp) →
        (pos.current_price - ep) / ep ≥ cfg.takeProfit →
        checkPositionRisk cfg pos = some ⟨"partial_sell", "take_profit", some (1/2)⟩) ∧
    (¬ (pos.current_price - ep) / ep ≤ -cfg.stopLoss →
        (cfg.useTrailingStop = true →
          ∀ tsp, pos.trailing_stop_price = some tsp → ¬ pos.current_price ≤ tsp) →
        ¬ (pos.current_price - ep) / ep ≥ cfg.takeProfit →
        checkPositionRisk cfg pos = some ⟨"hold", "within_limits", none⟩) ∧
    (∀ sellO t st,
        (executeRiskAction sellO t pos st ⟨"partial_sell", "take_profit", some (1/2)⟩).2.2
          = [⟨"sell", t, pos.quantity * (1/2)⟩]) := by
  obtain ⟨cur, q, epf, et, cp, hpf, lpf, tspf⟩ := pos
  simp only at hep ⊢
  subst hep
  unfold checkPositionRisk
  simp only [if_neg hep0]
  refine ⟨?_, ?_, ?_, ?_, ?_⟩
  · intro hstop; rw [if_pos hstop]
  · intro hnstop hu tsp hpv htsp hhp hle
    subst htsp; subst hhp
    simp [hnstop, hu, hle]
  · intro hnstop htr htp
    by_cases hu : cfg.useTrailingStop = true
    · cases htsp : tspf with
      | none => simp [hnstop, hu, htp]
      | some tsp =>
          have hnle := htr hu tsp htsp
          subst htsp
          simp [hnstop, hu, hnle, htp]
    · rw [Bool.not_eq_true] at hu
      simp [hnstop, hu, htp]
  · intro hnstop htr htp
    by_cases hu : cfg.useTrailingStop = true
    · cases htsp : tspf with
      | none => simp [hnstop, hu, htp]
      | some tsp =>
          have hnle := htr hu tsp htsp
          subst htsp
          simp [hnstop, hu, hnle, htp]
    · rw [Bool.not_eq_true] at hu
      simp [hnstop, hu, htp]
  · intro sellO t st
    simp only [executeRiskAction]
    split
    · simp_all
    · split
      · split <;> rfl
      · simp_all

/-- Witness for C1: a concrete position for which all three trigger
conditions hold simultaneously (entry 100, current 90, 5% stop-loss,
trailing stop at 95, take-profit threshold −20%): the stop-loss full exit
is the action applied. -/
theorem C1_exit_priority_witness :
    checkPositionRisk ⟨1/20, -(1/5), 1/50, true⟩
        ⟨"BTC", 2, some 100, 0, 90, some 110, some 90, some 95⟩
      = some ⟨"sell", "stop_loss", none⟩ := by
  have h := (C1_exit_priority ⟨1/20, -(1/5), 1/50, true⟩
    ⟨"BTC", 2, some 100, 0, 90, some 110, some 90, some 95⟩ 100 rfl (by norm_num)).1
  exact h (by norm_num)

/-! ### Claim C2: the trailing stop never decreases -/

/-- C2: with trailing stop enabled, one cycle update sets the stored
trailing stop to `max existing (price·(1−trailing_pct))`, and across any
sequence of cycle updates the trailing-stop price, once set, never
decreases. -/
theorem C2_trailing_monotone (cfg : RiskConfig) (pos : Position) (t0 : ℚ)
    (hcfg : cfg.useTrailingStop = true) (h0 : pos.trailing_stop_price = some t0) :
    (∀ bal p, (updateExistingPosition cfg pos bal p).trailing_stop_price
        = some (max t0 (p * (1 - cfg.trailingStop)))) ∧
    ∀ obs : List (ℚ × ℚ),
      ∃ t1, (obs.foldl (fun q bp => updateExistingPosition cfg q bp.1 bp.2)
          pos).trailing_stop_price = some t1 ∧ t0 ≤ t1 := by
  constructor
  · intro bal p
    exact updateExisting_trailing cfg pos t0 bal p hcfg h0
  · intro obs
    induction obs generalizing pos t0 with
    | nil => exact ⟨t0, h0, le_refl t0⟩
    | cons bp rest ih =>
        have hstep := updateExisting_trailing cfg pos t0 bp.1 bp.2 hcfg h0
        obtain ⟨t1, h1, hle⟩ := ih (updateExistingPosition cfg pos bp.1 bp.2)
          (max t0 (bp.2 * (1 - cfg.trailingStop))) hstep
        exact ⟨t1, h1, le_trans (le_max_left _ _) hle⟩

/-- Witness for C2: entry at 100 with a 2% trailing stop set at 98; after
observing prices 110 then 105 the stored trailing stop is 107.8 ≥ 98. -/
theorem C2_trailing_monotone_witness :
    ∃ t1, ([((1 : ℚ), (110 : ℚ)), (1, 105)].foldl
        (fun q bp => updateExistingPosition ⟨1/20, 1/10, 1/50, true⟩ q bp.1 bp.2)
        ⟨"BTC", 1, some 100, 0, 100, some 100, some 100, some 98⟩).trailing_stop_price
      = some t1 ∧ (98 : ℚ) ≤ t1 :=
  (C2_trailing_monotone ⟨1/20, 1/10, 1/50, true⟩
    ⟨"BTC", 1, some 100, 0, 100, some 100, some 100, some 98⟩ 98 rfl rfl).2
    [(1, 110), (1, 105)]

/-! ### Dictionary lemmas for the ledger -/

theorem lookupPos_map_preserve (t s : String) (p : Position) (l : Ledger) (hst : s ≠ t) :
    lookupPos t (l.map (fun kv => if kv.1 = s then (s, p) else kv)) = lookupPos t l := by
  induction l with
  | nil => rfl
  | cons kv rest ih =>
      by_cases hk : kv.1 = s
      · simp only [lookupPos, List.map_cons, if_pos hk]
        rw [List.find?_cons_of_neg _ (by simp [hst]),
          List.find?_cons_of_neg _ (by simp [hk, hst])]
        exact ih
      · simp only [lookupPos, List.map_cons, if_neg hk]
        by_cases hkt : kv.1 = t
        · rw [List.find?_cons_of_pos _ (by simp [hkt]),
            List.find?_cons_of_pos _ (by simp [hkt])]
        · rw [List.find?_cons_of_neg _ (by simp [hkt]),
            List.find?_cons_of_neg _ (by simp [hkt])]
          exact ih

theorem lookupPos_upsert_self (t : String) (p : Position) (l : Ledger) :
    lookupPos t (upsertPos t p l) = some p := by
  unfold upsertPos
  split
  case isTrue h =>
      induction l with
      | nil => simp at h
      | cons kv rest ih =>
          by_cases hk : kv.1 = t
          · simp only [List.map_cons, if_pos hk, lookupPos]
            rw [List.find?_cons_of_pos _ (by simp)]
            rfl
          · simp only [List.any_cons, Bool.or_eq_true, decide_eq_true_eq] at h
            rcases h with h | h
            · exact absurd h hk
            · simp only [List.map_cons, if_neg hk, lookupPos]
              rw [List.find?_cons_of_neg _ (by simp [hk])]
              exact ih h
  case isFalse h =>
      have hnone : l.find? (fun kv => kv.1 = t) = none := by
        rw [List.find?_eq_none]
        intro x hx
        simp only [List.any_eq_true, not_exists, not_and] at h
        simp [h x hx]
      simp only [lookupPos, List.find?_append, hnone, Option.none_orElse]
      rw [List.find?_cons_of_pos _ (by simp)]
      rfl

theorem lookupPos_upsert_other (t s : String) (p : Position) (l : Ledger) (hst : s ≠ t) :
    lookupPos t (upsertPos s p l) = lookupPos t l := by
  unfold upsertPos
  split
  · exact lookupPos_map_preserve t s p l hst
  · simp only [lookupPos, List.find?_append]
    rw [List.find?_cons_of_neg _ (by simp [hst]), List.find?_nil]
    cases l.find? (fun kv => kv.1 = t) <;> rfl

theorem lookupPos_updateStep_other (cfg : RiskConfig) (priceOf : String → Option ℚ)
    (now : ℕ) (st acc : Ledger) (b : String × ℚ) (t : String)
    (hb : ¬ "KRW-" ++ b.1 = t) :
    lookupPos t (updateStep cfg priceOf now st acc b) = lookupPos t acc := by
  unfold updateStep
  split
  · rfl
  · split
    · rfl
    · dsimp only
      cases hp : priceOf ("KRW-" ++ b.1) with
      | none => rfl
      | some p =>
          dsimp only
          split
          · rfl
          · cases ho : lookupPos ("KRW-" ++ b.1) st with
            | none => exact lookupPos_upsert_other t _ _ acc hb
            | some old => exact lookupPos_upsert_other t _ _ acc hb

theorem lookupPos_foldl_other (cfg : RiskConfig) (priceOf : String → Option ℚ)
    (now : ℕ) (st : Ledger) (t : String) :
    ∀ (bs : List (String × ℚ)) (acc : Ledger),
      (∀ b ∈ bs, ¬ "KRW-" ++ b.1 = t) →
      lookupPos t (bs.foldl (updateStep cfg priceOf now st) acc) = lookupPos t acc := by
  intro bs
  induction bs with
  | nil => intro acc _; rfl
  | cons b rest ih =>
      intro acc hall
      rw [List.foldl_cons, ih _ (fun x hx => hall x (List.mem_cons_of_mem b hx)),
        lookupPos_updateStep_other cfg priceOf now st acc b t
          (hall b (List.mem_cons_self b rest))]

/-- Any ledger entry surviving one `updateStep` for a ticker already present in
the pre-cycle snapshot `st` keeps that snapshot entry's identity fields. -/
theorem updateStep_entry_frame (cfg : RiskConfig) (priceOf : String → Option ℚ)
    (now : ℕ) (st acc : Ledger) (b : String × ℚ) (t : String) (old : Position)
    (hold : lookupPos t st = some old)
    (hacc : ∀ pos1, lookupPos t acc = some pos1 →
      pos1.entry_time = old.entry_time ∧ pos1.currency = old.currency ∧
        ∀ e, old.entry_price = some e → pos1.entry_price = some e) :
    ∀ pos1, lookupPos t (updateStep cfg priceOf now st acc b) = some pos1 →
      pos1.entry_time = old.entry_time ∧ pos1.currency = old.currency ∧
        ∀ e, old.entry_price = some e → pos1.entry_price = some e := by
  intro pos1
  unfold updateStep
  split
  · exact hacc pos1
  · split
    · exact hacc pos1
    · dsimp only
      cases hp : priceOf ("KRW-" ++ b.1) with
      | none => exact hacc pos1
      | some p =>
          dsimp only
          split
          · exact hacc pos1
          · by_cases htk : "KRW-" ++ b.1 = t
            · rw [htk, hold]
              dsimp only
              rw [lookupPos_upsert_self]
              intro hsome
              obtain rfl : updateExistingPosition cfg old b.2 p = pos1 :=
                Option.some.inj hsome
              refine ⟨updateExisting_entry_time cfg old b.2 p,
                updateExisting_currency cfg old b.2 p, ?_⟩
              intro e he
              rw [updateExisting_entry_price cfg old b.2 p, he]
              rfl
            · cases ho : lookupPos ("KRW-" ++ b.1) st with
              | none =>
                  rw [lookupPos_upsert_other t _ _ acc htk]
                  exact hacc pos1
              | some o =>
                  rw [lookupPos_upsert_other t _ _ acc htk]
                  exact hacc pos1

/-! ### Claim C10: cycle updates never touch entry price or entry time -/

/-- C10: for a ticker whose position already exists in the pre-cycle ledger,
any entry for that ticker in the ledger produced by `update_positions` keeps
the old position's `entry_time`, `currency`, and (when present) its
`entry_price`; the entry price is assigned from the observed price only when
the position is first created. -/
theorem C10_entry_frame (cfg : RiskConfig) (priceOf : String → Option ℚ) (now : ℕ)
    (balances : Option (List (String × ℚ))) (st : Ledger) (t : String)
    (pos1 old : Position)
    (hres : lookupPos t (updatePositions cfg priceOf now balances st) = some pos1)
    (hold : lookupPos t st = some old) :
    pos1.entry_time = old.entry_time ∧ pos1.currency = old.currency ∧
      ∀ e, old.entry_price = some e → pos1.entry_price = some e := by
  match balances with
  | none =>
      obtain rfl : old = pos1 := Option.some.inj ((hold.symm.trans hres))
      exact ⟨rfl, rfl, fun e he => he⟩
  | some [] =>
      obtain rfl : old = pos1 := Option.some.inj ((hold.symm.trans hres))
      exact ⟨rfl, rfl, fun e he => he⟩
  | some (b :: bs) =>
      revert hres
      have main : ∀ (l : List (String × ℚ)) (acc : Ledger),
          (∀ q, lookupPos t acc = some q →
            q.entry_time = old.entry_time ∧ q.currency = old.currency ∧
              ∀ e, old.entry_price = some e → q.entry_price = some e) →
          ∀ q, lookupPos t (l.foldl (updateStep cfg priceOf now st) acc) = some q →
            q.entry_time = old.entry_time ∧ q.currency = old.currency ∧
              ∀ e, old.entry_price = some e → q.entry_price = some e := by
        intro l
        induction l with
        | nil => intro acc hacc; exact hacc
        | cons x xs ih =>
            intro acc hacc
            rw [List.foldl_cons]
            exact ih _ (updateStep_entry_frame cfg priceOf now st acc x t old hold hacc)
      intro hres
      exact main (b :: bs) [] (by intro q hq; simp [lookupPos] at hq) pos1 hres

/-- Witness for C10: a held position with entry price 100 and entry time 0,
updated in a cycle that observes price 120, keeps entry time 0 (and its
entry price, per the theorem's conclusion instantiated here). -/
theorem C10_entry_frame_witness :
    (lookupPos "KRW-BTC"
        (updatePositions ⟨1, 1, 1, false⟩ (fun _ => some 120) 5 (some [("BTC", 2)])
          [("KRW-BTC", ⟨"BTC", 1, some 100, 0, 100, some 100, some 100, none⟩)])).map
      Position.entry_price = some (some 100) := by
  have hres : lookupPos "KRW-BTC"
      (updatePositions ⟨1, 1, 1, false⟩ (fun _ => some 120) 5 (some [("BTC", 2)])
        [("KRW-BTC", ⟨"BTC", 1, some 100, 0, 100, some 100, some 100, none⟩)])
      = some (updateExistingPosition ⟨1, 1, 1, false⟩
          ⟨"BTC", 1, some 100, 0, 100, some 100, some 100, none⟩ 2 120) := by
    rfl
  have h := C10_entry_frame ⟨1, 1, 1, false⟩ (fun _ => some 120) 5 (some [("BTC", 2)])
    [("KRW-BTC", ⟨"BTC", 1, some 100, 0, 100, some 100, some 100, none⟩)] "KRW-BTC"
    (updateExistingPosition ⟨1, 1, 1, false⟩
      ⟨"BTC", 1, some 100, 0, 100, some 100, some 100, none⟩ 2 120)
    ⟨"BTC", 1, some 100, 0, 100, some 100, some 100, none⟩ hres rfl
  rw [hres]
  exact congrArg some (h.2.2 100 rfl)

/-! ### Claim C7: a full exit removes the entry and later re-entry is fresh -/

/-- C7: a successful full exit removes the position's ledger entry (and with
unique tickers the removed ticker no longer resolves); a ticker absent from
the pre-cycle ledger that shows a nonzero balance in a later cycle gets a
fresh position whose entry price, highest price and lowest price are all the
then-current price, with no state carried over. -/
theorem C7_full_exit_fresh :
    (∀ (sellO : String → ℚ → Option String) (t : String) (pos : Position) (st : Ledger)
        (reason u : String), sellO t pos.quantity = some u →
        executeRiskAction sellO t pos st ⟨"sell", reason, none⟩
          = (⟨some true, "sell", reason⟩, st.eraseP (fun kv => kv.1 = t),
             [⟨"sell", t, pos.quantity⟩])) ∧
    (∀ (t : String) (st : Ledger), (st.map Prod.fst).Nodup →
        lookupPos t (st.eraseP (fun kv => kv.1 = t)) = none) ∧
    (∀ (cfg : RiskConfig) (priceOf : String → Option ℚ) (now : ℕ) (cur : String)
        (bal p : ℚ) (l1 l2 : List (String × ℚ)) (st : Ledger),
        cur ≠ "KRW" → ¬ bal ≤ 0 → priceOf ("KRW-" ++ cur) = some p → ¬ p = 0 →
        lookupPos ("KRW-" ++ cur) st = none →
        (∀ b ∈ l2, ¬ "KRW-" ++ b.1 = "KRW-" ++ cur) →
        lookupPos ("KRW-" ++ cur)
            (updatePositions cfg priceOf now (some (l1 ++ (cur, bal) :: l2)) st)
          = some (newPosition cfg cur bal p now)) ∧
    (∀ (cfg : RiskConfig) (cur : String) (bal p : ℚ) (now : ℕ),
        (newPosition cfg cur bal p now).entry_price = some p ∧
        (newPosition cfg cur bal p now).highest_price = some p ∧
        (newPosition cfg cur bal p now).lowest_price = some p ∧
        (newPosition cfg cur bal p now).current_price = p ∧
        (newPosition cfg cur bal p now).entry_time = now) := by
  refine ⟨?_, ?_, ?_, ?_⟩
  · intro sellO t pos st reason u hu
    simp [executeRiskAction, hu]
  · intro t st hnodup
    induction st with
    | nil => rfl
    | cons kv rest ih =>
        rw [List.map_cons, List.nodup_cons] at hnodup
        by_cases hk : kv.1 = t
        · rw [List.eraseP_cons_of_pos (by simp [hk])]
          unfold lookupPos
          rw [List.find?_eq_none.mpr]
          · rfl
          · intro x hx
            simp only [decide_eq_true_eq]
            intro hxt
            exact hnodup.1 (hk ▸ hxt ▸ List.mem_map_of_mem Prod.fst hx)
        · rw [List.eraseP_cons_of_neg (by simp [hk])]
          unfold lookupPos
          rw [List.find?_cons_of_neg _ (by simp [hk])]
          exact ih hnodup.2
  · intro cfg priceOf now cur bal p l1 l2 st hcur hbal hp hp0 hst hl2
    have hstep : ∀ acc : Ledger,
        updateStep cfg priceOf now st acc (cur, bal)
          = upsertPos ("KRW-" ++ cur) (newPosition cfg cur bal p now) acc := by
      intro acc
      simp [updateStep, hcur, hbal, hp, hp0, hst]
    have hup : ∀ (b : String × ℚ) (bs : List (String × ℚ)),
        updatePositions cfg priceOf now (some (b :: bs)) st
          = (b :: bs).foldl (updateStep cfg priceOf now st) [] := fun _ _ => rfl
    cases l1 with
    | nil =>
        rw [List.nil_append, hup, List.foldl_cons, hstep,
          lookupPos_foldl_other cfg priceOf now st _ l2 _ hl2, lookupPos_upsert_self]
    | cons a l1' =>
        rw [List.cons_append, hup, List.foldl_cons, List.foldl_append, List.foldl_cons,
          hstep, lookupPos_foldl_other cfg priceOf now st _ l2 _ hl2, lookupPos_upsert_self]
  · exact fun cfg cur bal p now => ⟨rfl, rfl, rfl, rfl, rfl⟩

/-- Witness for C7: starting from an empty ledger, a cycle observing a
balance of 3 XRP at price 50 creates the fresh position
`newPosition` with entry price, extrema and current price all 50. -/
theorem C7_full_exit_fresh_witness :
    lookupPos "KRW-XRP"
        (updatePositions ⟨1, 1, 1, false⟩ (fun _ => some 50) 7 (some [("XRP", 3)]) [])
      = some (newPosition ⟨1, 1, 1, false⟩ "XRP" 3 50 7) :=
  C7_full_exit_fresh.2.2.1 ⟨1, 1, 1, false⟩ (fun _ => some 50) 7 "XRP" 3 50 [] [] []
    (by decide) (by norm_num) rfl (by norm_num) rfl (by simp)

/-! ### Claim C6: one full exit aborts the risk cycle (dict mutated during
iteration) -/

/-- C6 (refuting evaluation): with two ledger entries, the first hitting its
stop-loss and the sell order succeeding, `check_risk_limits` deletes the
first entry during iteration; the dict iterator then raises `RuntimeError`
(size changed), the outer `except` swallows it, and the returned `actions`
dict is empty — the second position is never evaluated and even the executed
exit's record is lost.  Only the ledger mutation and the submitted order
survive. -/
theorem C6_full_exit_aborts_cycle :
    checkRiskLimitsCore ⟨1/20, 1/10, 1/50, false⟩ (fun _ _ => some "uuid")
        [("KRW-A", ⟨"A", 1, some 100, 0, 90, some 100, some 90, none⟩),
         ("KRW-B", ⟨"B", 1, some 100, 0, 100, some 100, some 100, none⟩)]
      = ([], [("KRW-B", ⟨"B", 1, some 100, 0, 100, some 100, some 100, none⟩)],
         [⟨"sell", "KRW-A", 1⟩], true) := by
  norm_num [checkRiskLimitsCore, riskLoop, checkPositionRisk, executeRiskAction,
    List.eraseP]
  decide

/-! ### The strategy controller: `CombinedStrategy.execute_trade` -/

/-- Trading configuration (the `config['trading']` section):
`trade_amount` and `max_invest_ratio`. -/
structure TradeConfig where
  tradeAmount : ℚ
  maxInvest : ℚ
deriving DecidableEq

/-- Result of `CombinedStrategy.execute_trade`: the returned dict plus, for
accounting, the order submissions attempted and the number of records the
call appended to `self.orders` (appended only on order success). -/
structure TradeResult where
  success : Bool
  action : String
  submitted : List Submission
  ordersAdded : ℕ
deriving DecidableEq

/-- `CombinedStrategy.execute_trade`.  `priceRes`, `krwRes`, `coinRes` are
the collaborator results for the current price, cash balance and coin
balance (`none` = failure).  A zero total asset makes the ratio computation
raise `ZeroDivisionError`, caught by the outer handler as a failed hold. -/
def executeTrade (cfg : TradeConfig) (ticker : String) (signal conf : ℚ)
    (priceRes krwRes coinRes : Option ℚ)
    (buyO : ℚ → Option String) (sellO : ℚ → Option String) : TradeResult :=
  if signal = 0 ∨ conf < 3/5 then ⟨true, "hold", [], 0⟩
  else
    match priceRes with
    | none => ⟨false, "hold", [], 0⟩
    | some price =>
        match krwRes, coinRes with
        | some krw, some coin =>
            if signal > 0 then
              let total := krw + coin * price
              if total = 0 then ⟨false, "hold", [], 0⟩
              else
                let share := coin * price / total
                if share ≥ cfg.maxInvest then ⟨true, "hold", [], 0⟩
                else
                  let amt := min cfg.tradeAmount
                    (min (krw * (9/10)) ((cfg.maxInvest - share) * total))
                  if amt < 5000 then ⟨true, "hold", [], 0⟩
                  else
                    match buyO amt with
                    | some _ => ⟨true, "buy", [⟨"buy", ticker, amt⟩], 1⟩
                    | none => ⟨false, "hold", [⟨"buy", ticker, amt⟩], 0⟩
            else if signal < 0 then
              if coin ≤ 0 then ⟨true, "hold", [], 0⟩
              else
                match sellO coin with
                | some _ => ⟨true, "sell", [⟨"sell", ticker, coin⟩], 1⟩
                | none => ⟨false, "hold", [⟨"sell", ticker, coin⟩], 0⟩
            else ⟨true, "hold", [], 0⟩
        | _, _ => ⟨false, "hold", [], 0⟩

/-! ### Claim C3: entry gate and buy sizing -/

/-- C3: the strategy acts only when the fused signal is ±1 and confidence is
at least 0.6, otherwise it holds with no order; on an entry signal with the
coin-value ratio below the configured maximum, the buy notional is
`min(trade_amount, 0.9·cash, (max_ratio − ratio)·total)`; when that notional
is below the exchange minimum of 5000 the action resolves to hold and no
order is submitted, otherwise exactly that notional is submitted. -/
theorem C3_entry_gate_and_sizing (cfg : TradeConfig) (ticker : String)
    (signal conf : ℚ) (priceRes krwRes coinRes : Option ℚ)
    (buyO sellO : ℚ → Option String)
    (hsig : signal = -1 ∨ signal = 0 ∨ signal = 1) :
    (signal = 0 ∨ conf < 3/5 →
        executeTrade cfg ticker signal conf priceRes krwRes coinRes buyO sellO
          = ⟨true, "hold", [], 0⟩) ∧
    ((executeTrade cfg ticker signal conf priceRes krwRes coinRes buyO sellO).action ≠ "hold" →
        (signal = 1 ∨ signal = -1) ∧ 3/5 ≤ conf) ∧
    (∀ price krw coin, signal = 1 → ¬ conf < 3/5 →
        priceRes = some price → krwRes = some krw → coinRes = some coin →
        ¬ krw + coin * price = 0 →
        coin * price / (krw + coin * price) < cfg.maxInvest →
        (min cfg.tradeAmount (min (krw * (9/10))
            ((cfg.maxInvest - coin * price / (krw + coin * price)) * (krw + coin * price)))
              < 5000 →
          executeTrade cfg ticker signal conf priceRes krwRes coinRes buyO sellO
            = ⟨true, "hold", [], 0⟩) ∧
        (¬ min cfg.tradeAmount (min (krw * (9/10))
            ((cfg.maxInvest - coin * price / (krw + coin * price)) * (krw + coin * price)))
              < 5000 →
          (executeTrade cfg ticker signal conf priceRes krwRes coinRes buyO sellO).submitted
            = [⟨"buy", ticker, min cfg.tradeAmount (min (krw * (9/10))
                ((cfg.maxInvest - coin * price / (krw + coin * price))
                  * (krw + coin * price)))⟩])) := by
  refine ⟨?_, ?_, ?_⟩
  · intro hg
    unfold executeTrade
    rw [if_pos hg]
  · intro hact
    by_cases hg : signal = 0 ∨ conf < 3/5
    · exfalso
      apply hact
      unfold executeTrade
      rw [if_pos hg]
    · push_neg at hg
      rcases hsig with h | h | h
      · exact ⟨Or.inr h, hg.2⟩
      · exact absurd h hg.1
      · exact ⟨Or.inl h, hg.2⟩
  · intro price krw coin hs hc hp hk hco htot hshare
    subst hs; subst hp; subst hk; subst hco
    have hgate : ¬ ((1 : ℚ) = 0 ∨ conf < 3/5) := by
      push_neg
      exact ⟨by norm_num, not_lt.mp hc⟩
    constructor
    · intro hamt
      unfold executeTrade
      rw [if_neg hgate]
      dsimp only
      rw [if_pos (by norm_num : (1:ℚ) > 0), if_neg htot, if_neg (not_le.mpr hshare),
        if_pos hamt]
    · intro hamt
      unfold executeTrade
      rw [if_neg hgate]
      dsimp only
      rw [if_pos (by norm_num : (1:ℚ) > 0), if_neg htot, if_neg (not_le.mpr hshare),
        if_neg hamt]
      cases buyO (min cfg.tradeAmount (min (krw * (9/10))
        ((cfg.maxInvest - coin * price / (krw + coin * price)) * (krw + coin * price)))) <;>
        rfl

/-- Witness for C3 (scenario: cash 4999): with a valid entry signal and full
confidence but only 4999 cash, the computed notional min(100000, 4499.1,
2499.5) = 2499.5 is below 5000, so the action is hold with no submission. -/
theorem C3_entry_gate_and_sizing_witness :
    executeTrade ⟨100000, 1/2⟩ "KRW-BTC" 1 1 (some 100) (some 4999) (some 0)
        (fun _ => some "u") (fun _ => some "u") = ⟨true, "hold", [], 0⟩ :=
  ((C3_entry_gate_and_sizing ⟨100000, 1/2⟩ "KRW-BTC" 1 1 (some 100) (some 4999) (some 0)
      (fun _ => some "u") (fun _ => some "u") (Or.inr (Or.inr rfl))).2.2
    100 4999 0 rfl (by norm_num) rfl rfl rfl (by norm_num) (by norm_num)).1
    (by norm_num [min_def])

/-! ### Claim C5: order failures downgrade to hold and change nothing -/

/-- C5: whenever an order submission returns absent — strategy entry buy,
strategy exit sell, risk-engine full exit, or risk-engine partial exit — the
result has `success = false` with the action downgraded to hold, the ledger
and order book are unchanged (full exit keeps the entry, partial exit keeps
the quantity), and exactly one submission was attempted (no retry). -/
theorem C5_order_failure_holds :
    (∀ (cfg : TradeConfig) (ticker : String) (conf price krw coin : ℚ)
        (buyO sellO : ℚ → Option String),
        ¬ conf < 3/5 → ¬ krw + coin * price = 0 →
        coin * price / (krw + coin * price) < cfg.maxInvest →
        ¬ min cfg.tradeAmount (min (krw * (9/10))
            ((cfg.maxInvest - coin * price / (krw + coin * price)) * (krw + coin * price)))
              < 5000 →
        buyO (min cfg.tradeAmount (min (krw * (9/10))
            ((cfg.maxInvest - coin * price / (krw + coin * price)) * (krw + coin * price))))
          = none →
        executeTrade cfg ticker 1 conf (some price) (some krw) (some coin) buyO sellO
          = ⟨false, "hold",
              [⟨"buy", ticker, min cfg.tradeAmount (min (krw * (9/10))
                ((cfg.maxInvest - coin * price / (krw + coin * price))
                  * (krw + coin * price)))⟩], 0⟩) ∧
    (∀ (cfg : TradeConfig) (ticker : String) (conf price krw coin : ℚ)
        (buyO sellO : ℚ → Option String),
        ¬ conf < 3/5 → ¬ coin ≤ 0 → sellO coin = none →
        executeTrade cfg ticker (-1) conf (some price) (some krw) (some coin) buyO sellO
          = ⟨false, "hold", [⟨"sell", ticker, coin⟩], 0⟩) ∧
    (∀ (sellO : String → ℚ → Option String) (t : String) (pos : Position) (st : Ledger)
        (reason : String),
        sellO t pos.quantity = none →
        executeRiskAction sellO t pos st ⟨"sell", reason, none⟩
          = (⟨some false, "hold", reason⟩, st, [⟨"sell", t, pos.quantity⟩])) ∧
    (∀ (sellO : String → ℚ → Option String) (t : String) (pos : Position) (st : Ledger)
        (reason : String),
        sellO t (pos.quantity * (1/2)) = none →
        executeRiskAction sellO t pos st ⟨"partial_sell", reason, some (1/2)⟩
          = (⟨some false, "hold", reason⟩, st, [⟨"sell", t, pos.quantity * (1/2)⟩])) := by
  refine ⟨?_, ?_, ?_, ?_⟩
  · intro cfg ticker conf price krw coin buyO sellO hc htot hshare hamt hb
    have hgate : ¬ ((1 : ℚ) = 0 ∨ conf < 3/5) := by
      push_neg
      exact ⟨by norm_num, not_lt.mp hc⟩
    unfold executeTrade
    rw [if_neg hgate]
    dsimp only
    rw [if_pos (by norm_num : (1:ℚ) > 0), if_neg htot, if_neg (not_le.mpr hshare),
      if_neg hamt, hb]
  · intro cfg ticker conf price krw coin buyO sellO hc hcoin hs
    have hgate : ¬ ((-1 : ℚ) = 0 ∨ conf < 3/5) := by
      push_neg
      exact ⟨by norm_num, not_lt.mp hc⟩
    unfold executeTrade
    rw [if_neg hgate]
    dsimp only
    rw [if_neg (by norm_num : ¬ (-1 : ℚ) > 0), if_pos (by norm_num : (-1:ℚ) < 0),
      if_neg hcoin, hs]
  · intro sellO t pos st reason hs
    simp [executeRiskAction, hs]
  · intro sellO t pos st reason hs
    rw [one_div] at hs
    simp [executeRiskAction, hs]

/-- Witness for C5: a failing sell collaborator turns a stop-loss full exit
into a failed hold that leaves the (empty) ledger untouched with exactly one
attempted submission; a failing buy collaborator does the same for a sized
entry. -/
theorem C5_order_failure_holds_witness :
    executeRiskAction (fun _ _ => none) "KRW-BTC"
        ⟨"BTC", 2, some 100, 0, 90, some 100, some 90, none⟩ [] ⟨"sell", "stop_loss", none⟩
      = (⟨some false, "hold", "stop_loss"⟩, [], [⟨"sell", "KRW-BTC", 2⟩]) ∧
    executeTrade ⟨100000, 1/2⟩ "KRW-BTC" 1 1 (some 100) (some 100000) (some 0)
        (fun _ => none) (fun _ => none)
      = ⟨false, "hold",
          [⟨"buy", "KRW-BTC", min (100000 : ℚ) (min (100000 * (9/10))
            ((1/2 - 0 * 100 / (100000 + 0 * 100)) * (100000 + 0 * 100)))⟩], 0⟩ :=
  ⟨C5_order_failure_holds.2.2.1 (fun _ _ => none) "KRW-BTC"
      ⟨"BTC", 2, some 100, 0, 90, some 100, some 90, none⟩ [] "stop_loss" rfl,
    C5_order_failure_holds.1 ⟨100000, 1/2⟩ "KRW-BTC" 1 100 100000 0
      (fun _ => none) (fun _ => none) (by norm_num) (by norm_num) (by norm_num)
      (by norm_num [min_def]) rfl⟩

/-! ### A miniature dataframe: cells, columns, frames -/

/-- A pandas cell; `none` is `NaN`. -/
abbrev Cell := Option ℚ

/-- A pandas column, oldest row first. -/
abbrev Col := List Cell

/-- A dataframe: named columns in insertion order. -/
abbrev Frame := List (String × Col)

/-- `name in df.columns`. -/
def hasCol (f : Frame) (name : String) : Bool :=
  f.any (fun c => c.1 = name)

/-- `df[name]` as an optional column. -/
def getCol (f : Frame) (name : String) : Option Col :=
  (f.find? (fun c => c.1 = name)).map (fun c => c.2)

/-- Number of rows, `len(df)`, read off the first column. -/
def nRows (f : Frame) : ℕ :=
  match f with
  | [] => 0
  | c :: _ => c.2.length

/-- `col.iloc[-i]` for `i ≥ 1`; out of range yields an undefined cell. -/
def ilocNeg (c : Col) (i : ℕ) : Cell :=
  if 1 ≤ i ∧ i ≤ c.length then (c.get? (c.length - i)).join else none

/-- `df[name].iloc[-1]`. -/
def lastCell (f : Frame) (name : String) : Cell :=
  match getCol f name with
  | none => none
  | some c => ilocNeg c 1

/-- Python/pandas comparisons: any comparison involving `NaN` is false. -/
def cellLT : Cell → Cell → Bool
  | some a, some b => decide (a < b)
  | _, _ => false

def cellLE : Cell → Cell → Bool
  | some a, some b => decide (a ≤ b)
  | _, _ => false

def cellGT : Cell → Cell → Bool
  | some a, some b => decide (a > b)
  | _, _ => false

def cellGE : Cell → Cell → Bool
  | some a, some b => decide (a ≥ b)
  | _, _ => false

def cellEQ : Cell → Cell → Bool
  | some a, some b => decide (a = b)
  | _, _ => false

/-- Python `x != 0`: true for `NaN` (`nan != 0` is `True`). -/
def cellNE0 : Cell → Bool
  | none => true
  | some a => decide (a ≠ 0)

/-- `NaN`-propagating arithmetic on cells. -/
def cAdd : Cell → Cell → Cell
  | some a, some b => some (a + b)
  | _, _ => none

def cSub : Cell → Cell → Cell
  | some a, some b => some (a - b)
  | _, _ => none

def cAbs (c : Cell) : Cell := c.map (fun x => |x|)

def cMulConst (c : Cell) (q : ℚ) : Cell := c.map (fun x => x * q)

def cSubConst (c : Cell) (q : ℚ) : Cell := c.map (fun x => x - q)

/-- Division of a cell by a nonzero constant. -/
def cDivConst (c : Cell) (q : ℚ) : Cell := c.map (fun x => x / q)

/-- Python `min(1.0, max(0.0, e))`: `max(0.0, nan)` keeps its first argument
`0.0` (the comparison with `NaN` is false), so a `NaN` input clamps to 0. -/
def clamp01 : Cell → ℚ
  | none => 0
  | some x => min 1 (max 0 x)

theorem clamp01_bounds (c : Cell) : 0 ≤ clamp01 c ∧ clamp01 c ≤ 1 := by
  cases c with
  | none => norm_num [clamp01]
  | some x =>
      unfold clamp01
      exact ⟨le_min (by norm_num) (le_max_left 0 x), min_le_left 1 _⟩

/-! ### `TechnicalIndicators.get_combined_signal` -/

/-- The signal columns and weights gathered by `get_combined_signal`, in
source order, keeping only the columns present in the frame. -/
def fusionPairs (f : Frame) : List (Col × ℚ) :=
  (if hasCol f "ma_cross_signal" then [((getCol f "ma_cross_signal").getD [], 3/10)] else [])
    ++ (if hasCol f "rsi_signal" then [((getCol f "rsi_signal").getD [], 1/5)] else [])
    ++ (if hasCol f "rsi_divergence" then [((getCol f "rsi_divergence").getD [], 3/20)] else [])
    ++ (if hasCol f "bb_signal" then [((getCol f "bb_signal").getD [], 1/5)] else [])
    ++ (if hasCol f "volume_signal" then [((getCol f "volume_signal").getD [], 3/20)] else [])

/-- Weighted sum of the present signal columns at row `i`; `NaN` propagates. -/
def weightedSum (f : Frame) (i : ℕ) : Cell :=
  (fusionPairs f).foldl (fun acc cw => cAdd acc (cMulConst ((cw.1.get? i).join) cw.2))
    (some 0)

/-- `get_combined_signal` at row `i`: `+1` above `0.3`, `-1` below `-0.3`,
else `0`.  A `NaN` weighted sum compares false on both thresholds and leaves
the zero initialization; with no signal columns the code returns the
constant-0 series. -/
def combinedSignalAt (f : Frame) (i : ℕ) : ℚ :=
  if (fusionPairs f).isEmpty then 0
  else if cellGT (weightedSum f i) (some (3/10)) then 1
  else if cellLT (weightedSum f i) (some (-(3/10))) then -1
  else 0

/-! ### `CombinedStrategy._calculate_confidence` -/

/-- Python string comparison: lexicographic on the code points. -/
def strLt (a b : String) : Bool := decide (a.data < b.data)

/-- `str.startswith(pre)`: the code points of `pre` lead those of `s`. -/
def strStartsWith (s pre : String) : Bool := s.data.take pre.data.length = pre.data

/-- Column names starting with `"ma"` (`df.columns.str.startswith('ma')`). -/
def maCols (f : Frame) : List String :=
  (f.map Prod.fst).filter (fun s => strStartsWith s "ma")

/-- pandas `Index.min()` on strings: the lexicographically least name. -/
def stringListMin : List String → Option String
  | [] => none
  | s :: rest => some (rest.foldl (fun a b => if strLt b a then b else a) s)

/-- pandas `Index.max()` on strings: the lexicographically greatest name. -/
def stringListMax : List String → Option String
  | [] => none
  | s :: rest => some (rest.foldl (fun a b => if strLt a b then b else a) s)

/-- Factor 2 of `_calculate_confidence` (crossover strength), computed only
when `ma_cross_signal` is present with a latest value `!= 0`.  The code takes
the *string* minimum and maximum of the ma-prefixed column names as the
"short" and "long" columns, then clamps `(|short − long|/close − 0.001)/0.049`
into `[0, 1]`.  A zero close raises `ZeroDivisionError` (`Except.error`); an
empty name list would make `min()` raise as well. -/
def maCrossoverFactor (f : Frame) : Except Unit (Option ℚ) :=
  if hasCol f "ma_cross_signal" && cellNE0 (lastCell f "ma_cross_signal") then
    match stringListMin (maCols f), stringListMax (maCols f) with
    | some sn, some ln =>
        let num := cAbs (cSub (lastCell f sn) (lastCell f ln))
        match lastCell f "close" with
        | none => Except.ok (some (clamp01 none))
        | some c =>
            if c = 0 then Except.error ()
            else Except.ok (some (clamp01
              (cDivConst (cSubConst (cDivConst num c) (1/1000)) (49/1000))))
    | _, _ => Except.error ()
  else Except.ok none

/-- Factor 1: fraction of the previous four bars whose fused signal equals
the latest one (`i <= len(df)` guards the backward index). -/
def signalConsistency (f : Frame) (sigCol : Col) : ℚ :=
  (((List.range' 2 4).filter (fun i =>
      decide (i ≤ nRows f) && cellEQ (ilocNeg sigCol i) (ilocNeg sigCol 1))).length : ℚ) / 4

/-- Factor 3: band-width confidence. -/
def bbFactor (f : Frame) : ℚ :=
  1 - clamp01 (cDivConst (cSubConst (lastCell f "bb_bandwidth") (3/100)) (12/100))

/-- Factor 4: RSI distance, branching on the sign of the latest signal. -/
def rsiFactor (f : Frame) (s : Cell) : ℚ :=
  if cellGT s (some 0) then 1 - clamp01 (cDivConst (cSubConst (lastCell f "rsi14") 30) 20)
  else if cellLT s (some 0) then clamp01 (cDivConst (cSubConst (lastCell f "rsi14") 50) 20)
  else 1/2

/-- Factor 5: volume-ratio confidence. -/
def volumeFactor (f : Frame) : ℚ :=
  clamp01 (cDivConst (cSubConst (lastCell f "volume_ratio") 1) 2)

/-- The factor list of `_calculate_confidence`; `Except.error` models an
escaping exception (missing or empty `signal` column raises; the crossover
factor can raise on a zero close). -/
def confidenceFactors (f : Frame) : Except Unit (List ℚ) :=
  match getCol f "signal" with
  | none => Except.error ()
  | some sigCol =>
      if sigCol.length = 0 then Except.error ()
      else
        let s := ilocNeg sigCol 1
        match maCrossoverFactor f with
        | Except.error e => Except.error e
        | Except.ok m2 =>
            Except.ok ([signalConsistency f sigCol] ++ m2.toList
              ++ (if hasCol f "bb_bandwidth" then [bbFactor f] else [])
              ++ (if hasCol f "rsi14" then [rsiFactor f s] else [])
              ++ (if hasCol f "volume_ratio" then [volumeFactor f] else []))

/-- `_calculate_confidence`: the mean of the factors (0.5 when none). -/
def calculateConfidence (f : Frame) : Except Unit ℚ :=
  match confidenceFactors f with
  | Except.error e => Except.error e
  | Except.ok l => Except.ok (if l.isEmpty then 1/2 else l.sum / (l.length : ℚ))

/-- Confidence as `get_signal` surfaces it: an escaping exception is caught
by the handler, which returns confidence `0.0`. -/
def signalConfidence (f : Frame) : ℚ :=
  match calculateConfidence f with
  | Except.ok c => c
  | Except.error _ => 0

theorem maCrossoverFactor_bounds (f : Frame) (q : ℚ)
    (h : maCrossoverFactor f = Except.ok (some q)) : 0 ≤ q ∧ q ≤ 1 := by
  unfold maCrossoverFactor at h
  split at h
  · split at h
    · split at h
      · obtain rfl : clamp01 none = q := by
          injection h with h1
          injection h1
        exact clamp01_bounds none
      · split at h
        · cases h
        · obtain rfl : clamp01 _ = q := by
            injection h with h1
            injection h1
          exact clamp01_bounds _
    · cases h
  · cases h

theorem signalConsistency_bounds (f : Frame) (sigCol : Col) :
    0 ≤ signalConsistency f sigCol ∧ signalConsistency f sigCol ≤ 1 := by
  unfold signalConsistency
  constructor
  · positivity
  · rw [div_le_one (by norm_num)]
    have hlen := List.length_filter_le
      (fun i => decide (i ≤ nRows f) && cellEQ (ilocNeg sigCol i) (ilocNeg sigCol 1))
      (List.range' 2 4)
    have : ((List.range' 2 4).filter (fun i =>
        decide (i ≤ nRows f) && cellEQ (ilocNeg sigCol i) (ilocNeg sigCol 1))).length ≤ 4 := by
      simpa using hlen
    exact_mod_cast this

theorem listMean_bounds (l : List ℚ) (hne : l ≠ [])
    (h : ∀ x ∈ l, 0 ≤ x ∧ x ≤ 1) :
    0 ≤ l.sum / (l.length : ℚ) ∧ l.sum / (l.length : ℚ) ≤ 1 := by
  have hlen : (0 : ℚ) < l.length := by
    have : l.length ≠ 0 := fun hc => hne (List.length_eq_zero.mp hc)
    exact_mod_cast Nat.pos_of_ne_zero this
  constructor
  · apply div_nonneg _ hlen.le
    apply List.sum_nonneg
    intro x hx
    exact (h x hx).1
  · rw [div_le_one hlen]
    have hsumle : ∀ (m : List ℚ), (∀ x ∈ m, x ≤ 1) → m.sum ≤ (m.length : ℚ) := by
      intro m
      induction m with
      | nil => intro _; simp
      | cons a as ih =>
          intro hm
          rw [List.sum_cons, List.length_cons]
          push_cast
          have h1 := hm a (List.mem_cons_self a as)
          have h2 := ih (fun x hx => hm x (List.mem_cons_of_mem a hx))
          linarith
    exact hsumle l (fun x hx => (h x hx).2)

theorem bbFactor_bounds (f : Frame) : 0 ≤ bbFactor f ∧ bbFactor f ≤ 1 := by
  unfold bbFactor
  have hc := clamp01_bounds
    (cDivConst (cSubConst (lastCell f "bb_bandwidth") (3/100)) (12/100))
  constructor <;> linarith [hc.1, hc.2]

theorem rsiFactor_bounds (f : Frame) (s : Cell) :
    0 ≤ rsiFactor f s ∧ rsiFactor f s ≤ 1 := by
  unfold rsiFactor
  split
  · have hc := clamp01_bounds (cDivConst (cSubConst (lastCell f "rsi14") 30) 20)
    constructor <;> linarith [hc.1, hc.2]
  · split
    · exact clamp01_bounds _
    · norm_num

theorem volumeFactor_bounds (f : Frame) : 0 ≤ volumeFactor f ∧ volumeFactor f ≤ 1 :=
  clamp01_bounds _

theorem confidenceFactors_bounds (f : Frame) (l : List ℚ)
    (h : confidenceFactors f = Except.ok l) : ∀ x ∈ l, 0 ≤ x ∧ x ≤ 1 := by
  unfold confidenceFactors at h
  cases hg : getCol f "signal" with
  | none => rw [hg] at h; cases h
  | some sigCol =>
      rw [hg] at h
      dsimp only at h
      split at h
      · cases h
      · cases hma : maCrossoverFactor f with
        | error e => rw [hma] at h; cases h
        | ok m2 =>
            rw [hma] at h
            dsimp only at h
            obtain rfl := Except.ok.inj h
            intro x hx
            simp only [List.mem_append] at hx
            rcases hx with (((hx | hx) | hx) | hx) | hx
            · rw [List.mem_singleton] at hx
              subst hx
              exact signalConsistency_bounds f sigCol
            · cases m2 with
              | none => simp at hx
              | some q =>
                  rw [Option.toList_some, List.mem_singleton] at hx
                  rw [hx]
                  exact maCrossoverFactor_bounds f q hma
            · split at hx
              · rw [List.mem_singleton] at hx
                subst hx
                exact bbFactor_bounds f
              · simp at hx
            · split at hx
              · rw [List.mem_singleton] at hx
                subst hx
                exact rsiFactor_bounds f _
              · simp at hx
            · split at hx
              · rw [List.mem_singleton] at hx
                subst hx
                exact volumeFactor_bounds f
              · simp at hx

/-! ### Claim C4: fused signal discretization and confidence range -/

/-- C4: at every row the fused signal is one of −1, 0, 1; it is `+1` exactly
when the weighted sum exceeds 0.3 and `−1` exactly when it is below −0.3; a
nonzero fused signal forces the weighted sum's magnitude above 0.3; and the
confidence returned alongside the signal always lies in `[0, 1]`. -/
theorem C4_fusion_and_confidence (f : Frame) :
    (∀ i : ℕ, combinedSignalAt f i = -1 ∨ combinedSignalAt f i = 0 ∨
        combinedSignalAt f i = 1) ∧
    (∀ i : ℕ, ∀ w : ℚ, weightedSum f i = some w →
        (combinedSignalAt f i = 1 ↔ w > 3/10) ∧
        (combinedSignalAt f i = -1 ↔ w < -(3/10))) ∧
    (∀ i : ℕ, combinedSignalAt f i ≠ 0 →
        ∃ w, weightedSum f i = some w ∧ 3/10 < |w|) ∧
    (0 ≤ signalConfidence f ∧ signalConfidence f ≤ 1) := by
  refine ⟨?_, ?_, ?_, ?_⟩
  · intro i
    unfold combinedSignalAt
    split
    · exact Or.inr (Or.inl rfl)
    · split
      · exact Or.inr (Or.inr rfl)
      · split
        · exact Or.inl rfl
        · exact Or.inr (Or.inl rfl)
  · intro i w hw
    by_cases hemp : (fusionPairs f).isEmpty
    · have hzero : weightedSum f i = some 0 := by
        unfold weightedSum
        rw [List.isEmpty_iff.mp hemp]
        rfl
      rw [hw] at hzero
      obtain rfl : w = 0 := Option.some.inj hzero
      unfold combinedSignalAt
      rw [if_pos hemp]
      norm_num
    · unfold combinedSignalAt
      rw [if_neg hemp, hw]
      simp only [cellGT, cellLT, decide_eq_true_eq]
      by_cases h1 : w > 3/10
      · rw [if_pos h1]
        constructor
        · exact iff_of_true rfl h1
        · constructor
          · intro hc; norm_num at hc
          · intro hc; linarith
      · rw [if_neg h1]
        by_cases h2 : w < -(3/10)
        · rw [if_pos h2]
          constructor
          · constructor
            · intro hc; norm_num at hc
            · intro hc; exact absurd hc h1
          · exact iff_of_true rfl h2
        · rw [if_neg h2]
          constructor
          · constructor
            · intro hc; norm_num at hc
            · intro hc; exact absurd hc h1
          · constructor
            · intro hc; norm_num at hc
            · intro hc; exact absurd hc h2
  · intro i hne
    by_cases hemp : (fusionPairs f).isEmpty
    · exfalso
      apply hne
      unfold combinedSignalAt
      rw [if_pos hemp]
    · cases hw : weightedSum f i with
      | none =>
          exfalso
          apply hne
          unfold combinedSignalAt
          rw [if_neg hemp, hw]
          rfl
      | some w =>
          refine ⟨w, rfl, ?_⟩
          unfold combinedSignalAt at hne
          rw [if_neg hemp, hw] at hne
          simp only [cellGT, cellLT, decide_eq_true_eq] at hne
          by_cases h1 : w > 3/10
          · exact lt_of_lt_of_le h1 (le_abs_self w)
          · by_cases h2 : w < -(3/10)
            · have : 3/10 < -w := by linarith
              exact lt_of_lt_of_le this (neg_le_abs w)
            · exfalso
              apply hne
              rw [if_neg h1, if_neg h2]
  · unfold signalConfidence
    cases hc : calculateConfidence f with
    | error e => norm_num
    | ok c =>
        unfold calculateConfidence at hc
        cases hf : confidenceFactors f with
        | error e => rw [hf] at hc; cases hc
        | ok l =>
            rw [hf] at hc
            obtain rfl : (if l.isEmpty then (1 : ℚ)/2 else l.sum / (l.length : ℚ)) = c :=
              Except.ok.inj hc
            by_cases hl : l.isEmpty
            · rw [if_pos hl]
              norm_num
            · rw [if_neg hl]
              exact listMean_bounds l (fun hnil => hl (by rw [hnil]; rfl))
                (confidenceFactors_bounds f l hf)

/-- A frame in which all five indicator signals are +1 at the only bar. -/
def cf4 : Frame :=
  [("ma_cross_signal", [some 1]), ("rsi_signal", [some 1]),
   ("rsi_divergence", [some 1]), ("bb_signal", [some 1]),
   ("volume_signal", [some 1]), ("close", [some 100]), ("signal", [some 1])]

/-- Witness for C4 (scenario: all five indicator signals +1): the weighted
sum is `0.3+0.2+0.15+0.2+0.15 = 1` and the fused signal is +1. -/
theorem C4_fusion_and_confidence_witness :
    weightedSum cf4 0 = some 1 ∧ combinedSignalAt cf4 0 = 1 := by
  have hma : getCol cf4 "ma_cross_signal" = some [some 1] := by decide
  have hrsi : getCol cf4 "rsi_signal" = some [some 1] := by decide
  have hdiv : getCol cf4 "rsi_divergence" = some [some 1] := by decide
  have hbb : getCol cf4 "bb_signal" = some [some 1] := by decide
  have hvol : getCol cf4 "volume_signal" = some [some 1] := by decide
  have h1 : hasCol cf4 "ma_cross_signal" = true := by decide
  have h2 : hasCol cf4 "rsi_signal" = true := by decide
  have h3 : hasCol cf4 "rsi_divergence" = true := by decide
  have h4 : hasCol cf4 "bb_signal" = true := by decide
  have h5 : hasCol cf4 "volume_signal" = true := by decide
  have hw : weightedSum cf4 0 = some 1 := by
    rw [weightedSum, fusionPairs, h1, h2, h3, h4, h5, hma, hrsi, hdiv, hbb, hvol]
    norm_num [cAdd, cMulConst]
  refine ⟨hw, ?_⟩
  exact ((C4_fusion_and_confidence cf4).2.1 0 1 hw).1.mpr (by norm_num)

/-! ### Claim C9: the crossover-strength confidence factor -/

/-- Modelled from the spec: "crossover strength: |shortMA − longMA| / close,
linearly mapped from [0.001, 0.05] to [0,1], clamped", with shortMA and
longMA the short-period and long-period simple moving averages. -/
def crossoverStrengthSpec (shortMA longMA close : ℚ) : ℚ :=
  min 1 (max 0 ((|shortMA - longMA| / close - 1/1000) / (49/1000)))

/-- The frame of a bar with default moving averages `ma9`, `ma21`, `ma50`,
the crossover and trend columns, and an active crossover at the latest bar. -/
def cf9 : Frame :=
  [("open", [some 100]), ("high", [some 101]), ("low", [some 99]),
   ("close", [some 100]), ("volume", [some 10]),
   ("ma9", [some 100]), ("ma21", [some 102]), ("ma50", [some 104]),
   ("ma_cross_signal", [some 1]), ("trend_direction", [some 1]), ("signal", [some 1])]

/-- C9 (refuting evaluation): the code picks the *lexicographic* min and max
of the ma-prefixed column names — `"ma21"` and `"ma_cross_signal"` — so on a
bar with close 100, ma9 = 100, ma21 = 102 and an active crossover it computes
`|102 − 1|/100` and clamps to 1, while the specified formula
`|shortMA − longMA|/close` mapped from `[0.001, 0.05]` gives 19/49. -/
theorem C9_crossover_strength_bug :
    stringListMin (maCols cf9) = some "ma21" ∧
    stringListMax (maCols cf9) = some "ma_cross_signal" ∧
    maCrossoverFactor cf9 = Except.ok (some 1) ∧
    crossoverStrengthSpec 100 102 100 = 19/49 ∧
    ((1 : ℚ) ≠ 19/49) := by
  have hmin : stringListMin (maCols cf9) = some "ma21" := by decide
  have hmax : stringListMax (maCols cf9) = some "ma_cross_signal" := by decide
  refine ⟨hmin, hmax, ?_, ?_, by norm_num⟩
  · have hcond : (hasCol cf9 "ma_cross_signal"
        && cellNE0 (lastCell cf9 "ma_cross_signal")) = true := by decide
    have h21 : lastCell cf9 "ma21" = some 102 := by decide
    have hcs : lastCell cf9 "ma_cross_signal" = some 1 := by decide
    have hcl : lastCell cf9 "close" = some 100 := by decide
    rw [maCrossoverFactor, hcond, if_pos rfl, hmin, hmax]
    dsimp only
    rw [h21, hcs, hcl]
    norm_num [cAbs, cSub, cSubConst, cDivConst, clamp01, min_def, max_def]
  · norm_num [crossoverStrengthSpec, min_def, max_def]

/-! ### The indicator pipeline (`TechnicalIndicators.add_indicators`) -/

/-- `col.iloc[i]` as a cell. -/
def cellAtC (xs : Col) (i : ℕ) : Cell := (xs.get? i).join

/-- `col.shift(1)` at row `i`: the previous row's cell, `NaN` at row 0. -/
def shiftCell (xs : Col) (i : ℕ) : Cell :=
  if i = 0 then none else (xs.get? (i - 1)).join

/-- pandas `rolling(window=w).mean()`: `NaN` until the window is full, the
windowed mean afterwards (`NaN` whenever the window contains a `NaN`). -/
def rollingMeanC (w : ℕ) (xs : Col) : Col :=
  (List.range xs.length).map (fun i =>
    if i + 1 < w then none
    else
      let win := (xs.drop (i + 1 - w)).take w
      if win.all Option.isSome then some (((win.map (fun c => c.getD 0)).sum) / w)
      else none)

/-- `close.diff()`: first row `NaN`, then successive differences. -/
def diffCol (xs : Col) : Col :=
  (List.range xs.length).map (fun i =>
    if i = 0 then none else cSub ((xs.get? i).join) ((xs.get? (i - 1)).join))

/-- `positive[positive < 0] = 0` applied cellwise (`NaN` stays `NaN`). -/
def posPart (c : Col) : Col :=
  c.map (fun x => x.map (fun v => if v < 0 then 0 else v))

/-- `negative[negative > 0] = 0` applied cellwise. -/
def negPart (c : Col) : Col :=
  c.map (fun x => x.map (fun v => if v > 0 then 0 else v))

/-- The observations entering the exponentially-weighted mean at row `t`:
for every non-`NaN` cell at `j ≤ t`, its weight `(1−alpha)^(t−j)` and
value. -/
def ewmObs (alpha : ℚ) (xs : Col) (t : ℕ) : List (ℚ × ℚ) :=
  (List.range (t + 1)).filterMap (fun j =>
    ((xs.get? j).join).map (fun v => ((1 - alpha) ^ (t - j), v)))

/-- pandas `ewm(alpha=alpha, min_periods=mp).mean()` with `adjust=True`
(the pandas_ta `rma`): at row `t` the weighted mean of the non-`NaN`
observations so far; `NaN` until `mp` observations have been seen or when
the weights sum to zero. -/
def ewmMean (alpha : ℚ) (mp : ℕ) (xs : Col) : Col :=
  (List.range xs.length).map (fun t =>
    if (ewmObs alpha xs t).length < mp then none
    else
      let den := ((ewmObs alpha xs t).map Prod.fst).sum
      if den = 0 then none
      else some ((((ewmObs alpha xs t).map (fun p => p.1 * p.2)).sum) / den))

/-- pandas_ta `rsi(close, length=period)`: `100·pavg/(pavg+navg)` where
`pavg` and `navg` are the Wilder averages of the positive parts and of the
absolute values of the negative parts of the one-step differences; `0/0` is
`NaN`. -/
def rsiCol (period : ℕ) (close : Col) : Col :=
  let d := diffCol close
  let pavg := ewmMean (1 / (period : ℚ)) period (posPart d)
  let navg := (ewmMean (1 / (period : ℚ)) period (negPart d)).map
    (fun c => c.map (fun v => |v|))
  (List.range close.length).map (fun i =>
    match (pavg.get? i).join, (navg.get? i).join with
    | some p, some n => if p + n = 0 then none else some (100 * p / (p + n))
    | _, _ => none)

/-- `ma_cross_signal` at row `i`: golden cross (+1) when the short average
crosses above the long one, dead cross (−1) on the mirror case, else the
zero initialization (`NaN` comparisons are false). -/
def maCrossCell (sCol lCol : Col) (i : ℕ) : Cell :=
  if cellLE (shiftCell sCol i) (shiftCell lCol i)
      && cellGT (cellAtC sCol i) (cellAtC lCol i) then some 1
  else if cellGE (shiftCell sCol i) (shiftCell lCol i)
      && cellLT (cellAtC sCol i) (cellAtC lCol i) then some (-1)
  else some 0

/-- `trend_direction`: `np.where(close > ma_trend, 1, -1)` (`NaN` → −1). -/
def trendCell (close tCol : Col) (i : ℕ) : Cell :=
  if cellGT (cellAtC close i) (cellAtC tCol i) then some 1 else some (-1)

/-- `TechnicalIndicators.add_moving_average`: append the short/long/trend
simple moving averages and the crossover/trend columns.  A frame without a
close column raises and is returned unchanged by the method's handler. -/
def addMovingAverage (shortP longP trendP : ℕ) (f : Frame) : Frame :=
  match getCol f "close" with
  | none => f
  | some close =>
      let s := rollingMeanC shortP close
      let l := rollingMeanC longP close
      f ++ [("ma" ++ toString shortP, s), ("ma" ++ toString longP, l),
            ("ma" ++ toString trendP, rollingMeanC trendP close),
            ("ma_cross_signal", (List.range close.length).map (maCrossCell s l)),
            ("trend_direction",
              (List.range close.length).map (trendCell close (rollingMeanC trendP close)))]

/-- `rsi_signal` at row `i`: +1 on recovery through 30 from below, −1 on a
fall through 70 from above, else the zero initialization. -/
def rsiSignalCell (r : Col) (i : ℕ) : Cell :=
  if cellLT (shiftCell r i) (some 30) && cellGE (cellAtC r i) (some 30) then some 1
  else if cellGT (shiftCell r i) (some 70) && cellLE (cellAtC r i) (some 70) then
    some (-1)
  else some 0

/-- `TechnicalIndicators.add_rsi`. -/
def addRsi (period : ℕ) (f : Frame) : Frame :=
  match getCol f "close" with
  | none => f
  | some close =>
      let r := rsiCol period close
      f ++ [("rsi" ++ toString period, r),
            ("rsi_signal", (List.range close.length).map (rsiSignalCell r))]

/-- `rsi_divergence` at row `i` over window `w`: the zero initialization for
the first `w` rows, then +1 for bullish and −1 for bearish divergence of
close versus RSI against the bar `w` rows earlier (`NaN` comparisons are
false, so an undefined RSI look-back leaves the 0). -/
def rsiDivergenceCell (close r : Col) (w : ℕ) (i : ℕ) : Cell :=
  if i < w then some 0
  else if cellLT (cellAtC close i) (cellAtC close (i - w))
      && cellGT (cellAtC r i) (cellAtC r (i - w)) then some 1
  else if cellGT (cellAtC close i) (cellAtC close (i - w))
      && cellLT (cellAtC r i) (cellAtC r (i - w)) then some (-1)
  else some 0

/-- `TechnicalIndicators.add_rsi_divergence`, called from `add_indicators`
with its default period 14 and window 10: a frame without the `rsi14` column
is returned unchanged (with a warning). -/
def addRsiDivergence (period w : ℕ) (f : Frame) : Frame :=
  match getCol f ("rsi" ++ toString period), getCol f "close" with
  | some r, some close =>
      f ++ [("rsi_divergence",
             (List.range close.length).map (rsiDivergenceCell close r w))]
  | _, _ => f

/-- `volume_ratio` at row `i`: volume over its rolling mean.  A zero rolling
mean makes the float ratio non-finite; such a cell is modelled as
undefined. -/
def volumeRatioCell (vol vma : Col) (i : ℕ) : Cell :=
  match (vol.get? i).join, (vma.get? i).join with
  | some v, some m => if m = 0 then none else some (v / m)
  | _, _ => none

/-- `volume_signal` at row `i`: surge with a rising close (+1), surge with a
falling close (−1), else the zero initialization. -/
def volumeSignalCell (close ratio : Col) (surge : ℚ) (i : ℕ) : Cell :=
  if cellGT (cellAtC ratio i) (some surge)
      && cellGT (cellAtC close i) (shiftCell close i) then some 1
  else if cellGT (cellAtC ratio i) (some surge)
      && cellLT (cellAtC close i) (shiftCell close i) then some (-1)
  else some 0

/-- `TechnicalIndicators.add_volume_indicators`. -/
def addVolumeIndicators (period : ℕ) (surge : ℚ) (f : Frame) : Frame :=
  match getCol f "volume", getCol f "close" with
  | some vol, some close =>
      let vma := rollingMeanC period vol
      let ratio := (List.range vol.length).map (volumeRatioCell vol vma)
      f ++ [("volume_ma", vma), ("volume_ratio", ratio),
            ("volume_surge", (List.range vol.length).map (fun i =>
              if cellGT (cellAtC ratio i) (some surge) then some 1 else some 0)),
            ("volume_signal",
              (List.range vol.length).map (volumeSignalCell close ratio surge))]
  | _, _ => f

/-- Strategy configuration for `add_indicators`, restricted to
configurations with the Bollinger indicator disabled: its rolling standard
deviation is irrational-valued and falls outside this rational-arithmetic
model, and no claim settled here depends on it. -/
structure StratConfig where
  maEnabled : Bool
  shortPeriod : ℕ
  longPeriod : ℕ
  trendPeriod : ℕ
  rsiEnabled : Bool
  rsiPeriod : ℕ
  useDivergence : Bool
  volumeEnabled : Bool
  volumePeriod : ℕ
  surgeThreshold : ℚ

/-- `TechnicalIndicators.add_indicators` before the final `dropna`: the
enabled indicator blocks applied in source order. -/
def addIndicatorsRaw (cfg : StratConfig) (f : Frame) : Frame :=
  let f1 := if cfg.maEnabled then
      addMovingAverage cfg.shortPeriod cfg.longPeriod cfg.trendPeriod f
    else f
  let f2 := if cfg.rsiEnabled then
      (let fr := addRsi cfg.rsiPeriod f1
       if cfg.useDivergence then addRsiDivergence 14 10 fr else fr)
    else f1
  if cfg.volumeEnabled then addVolumeIndicators cfg.volumePeriod cfg.surgeThreshold f2
  else f2

/-- `df.dropna()` row filter: a row is kept when every column's cell there is
defined. -/
def rowKept (f : Frame) (i : ℕ) : Bool :=
  f.all (fun c => ((c.2.get? i).join).isSome)

/-- Input row indices surviving `dropna` — exactly the rows that reach
signal fusion. -/
def keptRows (f : Frame) : List ℕ :=
  (List.range (nRows f)).filter (rowKept f)

/-- `df.dropna()`: every column restricted to the kept rows. -/
def dropnaFrame (f : Frame) : Frame :=
  f.map (fun c => (c.1, (keptRows f).map (fun i => (c.2.get? i).join)))

/-- `TechnicalIndicators.add_indicators` (Bollinger disabled): the enabled
indicator blocks followed by `dropna`. -/
def addIndicators (cfg : StratConfig) (f : Frame) : Frame :=
  dropnaFrame (addIndicatorsRaw cfg f)

/-- The OHLCV input frame delivered by the market-data collaborator: five
fully defined columns. -/
def ohlcvFrame (o h l c v : List ℚ) : Frame :=
  [("open", o.map some), ("high", h.map some), ("low", l.map some),
   ("close", c.map some), ("volume", v.map some)]

/-! ### Helper lemmas for the pipeline -/

theorem mapRange_get (n i : ℕ) (g : ℕ → Cell) (h : i < n) :
    ((List.range n).map g).get? i = some (g i) := by
  rw [List.get?_map, List.get?_range h]
  rfl

theorem join_some {α : Type} (x : Option α) : (some x).join = x := rfl

theorem rsiSignalCell_isSome (r : Col) (i : ℕ) : (rsiSignalCell r i).isSome = true := by
  unfold rsiSignalCell
  split
  · rfl
  · split <;> rfl

theorem rsiDivergenceCell_isSome (close r : Col) (w i : ℕ) :
    (rsiDivergenceCell close r w i).isSome = true := by
  unfold rsiDivergenceCell
  split
  · rfl
  · split
    · rfl
    · split <;> rfl

theorem getCol_append_left (f g : Frame) (name : String) (col : Col)
    (h : getCol f name = some col) : getCol (f ++ g) name = some col := by
  unfold getCol at h ⊢
  rw [List.find?_append]
  cases hf : f.find? (fun c => c.1 = name) with
  | none => rw [hf] at h; cases h
  | some kv =>
      rw [hf] at h
      simpa using h

theorem getCol_append_right (f g : Frame) (name : String)
    (h : hasCol f name = false) : getCol (f ++ g) name = getCol g name := by
  unfold getCol
  rw [List.find?_append, List.find?_eq_none.mpr]
  · rfl
  · intro kv hkv
    unfold hasCol at h
    rw [List.any_eq_false] at h
    exact h kv hkv

theorem getCol_ohlcv_close (o h l c v : List ℚ) :
    getCol (ohlcvFrame o h l c v) "close" = some (c.map some) := by
  simp [ohlcvFrame, getCol, List.find?]

theorem getCol_ohlcv_volume (o h l c v : List ℚ) :
    getCol (ohlcvFrame o h l c v) "volume" = some (v.map some) := by
  simp [ohlcvFrame, getCol, List.find?]

theorem mem_addRsi (x : String × Col) (p : ℕ) (f : Frame) (hx : x ∈ f) :
    x ∈ addRsi p f := by
  unfold addRsi
  cases getCol f "close" with
  | none => exact hx
  | some close => exact List.mem_append_left _ hx

theorem mem_addRsiDivergence (x : String × Col) (p w : ℕ) (f : Frame) (hx : x ∈ f) :
    x ∈ addRsiDivergence p w f := by
  unfold addRsiDivergence
  cases getCol f ("rsi" ++ toString p) with
  | none => exact hx
  | some r =>
      cases getCol f "close" with
      | none => exact hx
      | some close => exact List.mem_append_left _ hx

theorem mem_addVolumeIndicators (x : String × Col) (p : ℕ) (surge : ℚ) (f : Frame)
    (hx : x ∈ f) : x ∈ addVolumeIndicators p surge f := by
  unfold addVolumeIndicators
  cases getCol f "volume" with
  | none => exact hx
  | some vol =>
      cases getCol f "close" with
      | none => exact hx
      | some close => exact List.mem_append_left _ hx

/-- Any row whose rolling-mean cell is still in the warm-up window is dropped
by `dropna`, hence excluded from fusion. -/
theorem rowKept_false_of_rollingMean (f : Frame) (name : String) (w : ℕ)
    (xs : List ℚ) (i : ℕ) (hmem : (name, rollingMeanC w (xs.map some)) ∈ f)
    (hi : i < xs.length) (hw : i + 1 < w) : rowKept f i = false := by
  rw [Bool.eq_false_iff]
  intro hall
  rw [rowKept, List.all_eq_true] at hall
  have hc := hall _ hmem
  rw [rollingMeanC, mapRange_get _ _ _ (by simpa using hi), if_pos hw] at hc
  simp at hc

theorem not_mem_keptRows_of_rowKept_false (f : Frame) (i : ℕ)
    (h : rowKept f i = false) : i ∉ keptRows f := by
  intro hmem
  unfold keptRows at hmem
  rw [List.mem_filter] at hmem
  rw [h] at hmem
  exact absurd hmem.2 (by simp)

theorem hasCol_append (f g : Frame) (n : String) :
    hasCol (f ++ g) n = (hasCol f n || hasCol g n) := by
  simp [hasCol]

/-- A name extending a literal keeps the literal's leading characters, so it
differs from any name that starts differently. -/
theorem append_ne_of_head (a r t : String)
    (ht : t.data.take a.data.length ≠ a.data) : ¬ (a ++ r) = t := by
  intro hcontra
  apply ht
  rw [← hcontra]
  show ((a ++ r).data.take a.data.length) = a.data
  have hdata : (a ++ r).data = a.data ++ r.data := rfl
  rw [hdata, List.take_left]

/-! ### Positivity facts about the exponentially-weighted mean -/

theorem ewmObs_weight_pos (alpha : ℚ) (xs : Col) (t : ℕ) (hα : 0 < 1 - alpha) :
    ∀ p ∈ ewmObs alpha xs t, 0 < p.1 := by
  intro p hp
  unfold ewmObs at hp
  rw [List.mem_filterMap] at hp
  obtain ⟨j, _, hg⟩ := hp
  cases hx : (xs.get? j).join with
  | none => rw [hx] at hg; cases hg
  | some v =>
      rw [hx] at hg
      simp only [Option.map_some'] at hg
      obtain rfl := Option.some.inj hg
      exact pow_pos hα _

theorem posPart_cell_nonneg (d : Col) (j : ℕ) (v : ℚ)
    (h : ((posPart d).get? j).join = some v) : 0 ≤ v := by
  unfold posPart at h
  rw [List.get?_map] at h
  cases hd : d.get? j with
  | none => rw [hd] at h; cases h
  | some cell =>
      rw [hd] at h
      cases cell with
      | none => simp at h
      | some x =>
          simp only [Option.map_some', Option.join] at h
          obtain rfl := Option.some.inj h
          split
          · exact le_refl 0
          · exact le_of_not_lt (by assumption)

theorem ewmObs_posPart_nonneg (alpha : ℚ) (d : Col) (t : ℕ) :
    ∀ p ∈ ewmObs alpha (posPart d) t, 0 ≤ p.2 := by
  intro p hp
  unfold ewmObs at hp
  rw [List.mem_filterMap] at hp
  obtain ⟨j, _, hg⟩ := hp
  cases hx : ((posPart d).get? j).join with
  | none => rw [hx] at hg; cases hg
  | some v =>
      rw [hx] at hg
      simp only [Option.map_some'] at hg
      obtain rfl := Option.some.inj hg
      exact posPart_cell_nonneg d j v hx

theorem ewmMean_den_pos (alpha : ℚ) (mp : ℕ) (xs : Col) (t : ℕ)
    (hα : 0 < 1 - alpha) (hmp : 1 ≤ mp)
    (hlen : ¬ (ewmObs alpha xs t).length < mp) :
    0 < ((ewmObs alpha xs t).map Prod.fst).sum := by
  have hne : ewmObs alpha xs t ≠ [] := by
    intro hnil
    rw [hnil] at hlen
    simp only [List.length_nil] at hlen
    omega
  apply List.sum_pos
  · intro w hw
    rw [List.mem_map] at hw
    obtain ⟨p, hp, rfl⟩ := hw
    exact ewmObs_weight_pos alpha xs t hα p hp
  · intro hc
    exact hne (List.map_eq_nil.mp hc)

theorem ewmMean_isSome (alpha : ℚ) (mp : ℕ) (xs : Col) (t : ℕ)
    (ht : t < xs.length) (hα : 0 < 1 - alpha) (hmp : 1 ≤ mp)
    (hlen : ¬ (ewmObs alpha xs t).length < mp) :
    (ewmMean alpha mp xs).get? t
      = some (some ((((ewmObs alpha xs t).map (fun p => p.1 * p.2)).sum)
          / (((ewmObs alpha xs t).map Prod.fst).sum))) := by
  unfold ewmMean
  rw [mapRange_get _ _ _ ht]
  dsimp only
  rw [if_neg hlen, if_neg (ewmMean_den_pos alpha mp xs t hα hmp hlen).ne']

theorem ewmMean_pos (alpha : ℚ) (mp : ℕ) (xs : Col) (t : ℕ)
    (ht : t < xs.length) (hα : 0 < 1 - alpha) (hmp : 1 ≤ mp)
    (hlen : ¬ (ewmObs alpha xs t).length < mp)
    (hnn : ∀ p ∈ ewmObs alpha xs t, 0 ≤ p.2)
    (hex : ∃ p ∈ ewmObs alpha xs t, 0 < p.2) :
    ∃ s, (ewmMean alpha mp xs).get? t = some (some s) ∧ 0 < s := by
  refine ⟨_, ewmMean_isSome alpha mp xs t ht hα hmp hlen, ?_⟩
  apply div_pos _ (ewmMean_den_pos alpha mp xs t hα hmp hlen)
  obtain ⟨p, hp, hppos⟩ := hex
  have hterm : 0 < p.1 * p.2 := mul_pos (ewmObs_weight_pos alpha xs t hα p hp) hppos
  have hmem : p.1 * p.2 ∈ (ewmObs alpha xs t).map (fun p => p.1 * p.2) :=
    List.mem_map_of_mem _ hp
  have hall : ∀ x ∈ (ewmObs alpha xs t).map (fun p => p.1 * p.2), 0 ≤ x := by
    intro x hx
    rw [List.mem_map] at hx
    obtain ⟨q, hq, rfl⟩ := hx
    exact mul_nonneg (ewmObs_weight_pos alpha xs t hα q hq).le (hnn q hq)
  have hle := List.single_le_sum hall _ hmem
  linarith

/-- The RSI cell is defined as soon as the positive-part average is defined
and positive and the negative-part average is defined. -/
theorem rsiCol_cell_isSome (period : ℕ) (close : Col) (i : ℕ)
    (hi : i < close.length)
    (hp : ∃ pv, (ewmMean (1 / (period : ℚ)) period (posPart (diffCol close))).get? i
        = some (some pv) ∧ 0 < pv)
    (hn : ∃ nv, (ewmMean (1 / (period : ℚ)) period (negPart (diffCol close))).get? i
        = some (some nv)) :
    (((rsiCol period close).get? i).join).isSome = true := by
  obtain ⟨pv, hpv, hpvpos⟩ := hp
  obtain ⟨nv, hnv⟩ := hn
  unfold rsiCol
  rw [mapRange_get _ _ _ hi]
  rw [hpv, List.get?_map, hnv]
  simp only [join_some, Option.map_some']
  rw [if_neg (add_pos_of_pos_of_nonneg hpvpos (abs_nonneg nv)).ne']
  rfl

/-! ### Claim C8: warm-up handling of the indicators -/

/-- An RSI-only configuration (period 14) with the divergence signal on. -/
def cfg8 : StratConfig := ⟨false, 9, 21, 50, true, 14, true, false, 20, 2⟩

/-- A 15-bar close series with nonzero one-step moves and
`close[4] = close[14] = 98`. -/
def c8 : List ℚ := [100, 101, 99, 102, 98, 103, 97, 104, 96, 105, 95, 106, 94, 107, 98]

/-- The collaborator's 15-bar OHLCV frame for the series above. -/
def frame8 : Frame := ohlcvFrame c8 c8 c8 c8 (List.replicate 15 10)

/-- C8 (refuting evaluation): with only the RSI indicator (period 14) and
its divergence enabled, a 15-bar series is shorter than the divergence
signal's required window of 14 + 10 bars, yet bar 14 — whose divergence
look-back falls in the RSI warm-up — carries the defaulted `rsi_divergence`
value 0 (not an undefined cell) and survives `dropna`, so the row is
included in downstream fusion rather than excluded. -/
theorem C8_divergence_default_included :
    nRows frame8 = 15 ∧ 15 < 14 + 10 ∧
    (getCol (addIndicatorsRaw cfg8 frame8) "rsi_divergence").map
        (fun col => cellAtC col 14) = some (some 0) ∧
    14 ∈ keptRows (addIndicatorsRaw cfg8 frame8) := by
  have hraw : addIndicatorsRaw cfg8 frame8
      = frame8 ++ [("rsi14", rsiCol 14 (c8.map some)),
                   ("rsi_signal", (List.range (c8.map some).length).map
                      (rsiSignalCell (rsiCol 14 (c8.map some))))]
        ++ [("rsi_divergence", (List.range (c8.map some).length).map
              (rsiDivergenceCell (c8.map some) (rsiCol 14 (c8.map some)) 10))] := rfl
  have hrsiSome : (((rsiCol 14 (c8.map some)).get? 14).join).isSome = true := by
    apply rsiCol_cell_isSome
    · decide
    · exact ewmMean_pos _ _ _ _ (by decide) (by norm_num) (by norm_num) (by decide)
        (ewmObs_posPart_nonneg _ _ _)
        ⟨_, List.mem_filterMap.mpr ⟨1, by decide, rfl⟩, by norm_num⟩
    · exact ⟨_, ewmMean_isSome _ _ _ _ (by decide) (by norm_num) (by norm_num) (by decide)⟩
  have hkept : rowKept (addIndicatorsRaw cfg8 frame8) 14 = true := by
    rw [hraw, rowKept, List.all_eq_true]
    intro cpair hc
    simp only [frame8, ohlcvFrame, c8, List.mem_append, List.mem_cons, List.mem_singleton,
      List.not_mem_nil, or_false] at hc
    rcases hc with ((rfl | rfl | rfl | rfl | rfl) | (rfl | rfl)) | rfl
    · decide
    · decide
    · decide
    · decide
    · decide
    · exact hrsiSome
    · rw [mapRange_get _ _ _ (by decide), join_some]
      exact rsiSignalCell_isSome _ _
    · rw [mapRange_get _ _ _ (by decide), join_some]
      exact rsiDivergenceCell_isSome _ _ _ _
  refine ⟨by decide, by decide, by decide, ?_⟩
  unfold keptRows
  rw [List.mem_filter]
  refine ⟨?_, hkept⟩
  have hn : nRows (addIndicatorsRaw cfg8 frame8) = 15 := by decide
  rw [hn]
  decide

theorem mem_addIndicatorsRaw (cfg : StratConfig) (f : Frame) (x : String × Col)
    (hma : cfg.maEnabled = true)
    (hx : x ∈ addMovingAverage cfg.shortPeriod cfg.longPeriod cfg.trendPeriod f) :
    x ∈ addIndicatorsRaw cfg f := by
  unfold addIndicatorsRaw
  rw [hma]
  simp only [eq_self_iff_true, if_true]
  split
  · apply mem_addVolumeIndicators
    split
    · split
      · exact mem_addRsiDivergence _ _ _ _ (mem_addRsi _ _ _ hx)
      · exact mem_addRsi _ _ _ hx
    · exact hx
  · split
    · split
      · exact mem_addRsiDivergence _ _ _ _ (mem_addRsi _ _ _ hx)
      · exact mem_addRsi _ _ _ hx
    · exact hx

theorem getCol_addMovingAverage_close (sp lp tp : ℕ) (o h l c v : List ℚ) :
    getCol (addMovingAverage sp lp tp (ohlcvFrame o h l c v)) "close"
      = some (c.map some) := by
  unfold addMovingAverage
  rw [getCol_ohlcv_close]
  exact getCol_append_left _ _ _ _ (getCol_ohlcv_close o h l c v)

theorem hasCol_addMovingAverage_false (sp lp tp : ℕ) (o h l c v : List ℚ) (t : String)
    (hbase : hasCol (ohlcvFrame o h l c v) t = false)
    (hne : t.data.take 2 ≠ ['m', 'a'])
    (hcs : ¬ ("ma_cross_signal" : String) = t)
    (htd : ¬ ("trend_direction" : String) = t) :
    hasCol (addMovingAverage sp lp tp (ohlcvFrame o h l c v)) t = false := by
  have h1 : ¬ ("ma" ++ toString sp) = t := append_ne_of_head "ma" _ t hne
  have h2 : ¬ ("ma" ++ toString lp) = t := append_ne_of_head "ma" _ t hne
  have h3 : ¬ ("ma" ++ toString tp) = t := append_ne_of_head "ma" _ t hne
  unfold addMovingAverage
  rw [getCol_ohlcv_close]
  dsimp only
  rw [hasCol_append, hbase]
  simp [hasCol, h1, h2, h3, hcs, htd]

theorem getCol_addVolumeIndicators (p : ℕ) (s : ℚ) (f : Frame) (name : String)
    (col : Col) (hg : getCol f name = some col) :
    getCol (addVolumeIndicators p s f) name = some col := by
  unfold addVolumeIndicators
  cases getCol f "volume" with
  | none => exact hg
  | some vol =>
      cases getCol f "close" with
      | none => exact hg
      | some close => exact getCol_append_left _ _ _ _ hg

/-- Shape of the RSI + divergence block over a frame that already carries the
close column and no rsi columns of its own. -/
theorem getCol_rsiDivergence_block (c : List ℚ) (f1 : Frame)
    (hclose1 : getCol f1 "close" = some (c.map some))
    (hno14 : hasCol f1 "rsi14" = false)
    (hnodiv : hasCol f1 "rsi_divergence" = false) :
    getCol (addRsiDivergence 14 10 (addRsi 14 f1)) "rsi_divergence"
      = some ((List.range (c.map some).length).map
          (rsiDivergenceCell (c.map some) (rsiCol 14 (c.map some)) 10)) := by
  have hname : ("rsi" ++ toString 14 : String) = "rsi14" := rfl
  have hfr : addRsi 14 f1
      = f1 ++ [("rsi" ++ toString 14, rsiCol 14 (c.map some)),
               ("rsi_signal", (List.range (c.map some).length).map
                  (rsiSignalCell (rsiCol 14 (c.map some))))] := by
    unfold addRsi
    rw [hclose1]
  have hg14 : getCol (addRsi 14 f1) ("rsi" ++ toString 14)
      = some (rsiCol 14 (c.map some)) := by
    rw [hfr, hname, getCol_append_right _ _ _ hno14]
    simp [getCol, List.find?]
  have hgclose : getCol (addRsi 14 f1) "close" = some (c.map some) := by
    rw [hfr]
    exact getCol_append_left _ _ _ _ hclose1
  have hnodivfr : hasCol (addRsi 14 f1) "rsi_divergence" = false := by
    rw [hfr, hasCol_append, hnodiv]
    simp [hasCol, hname]
  unfold addRsiDivergence
  rw [hg14, hgclose]
  dsimp only
  rw [getCol_append_right _ _ _ hnodivfr]
  simp [getCol, List.find?]

/-! #### Warm-up facts for the RSI and volume features -/

theorem cellGT_none_right (x : Cell) : cellGT x none = false := by
  cases x <;> rfl

theorem cellLT_none_right (x : Cell) : cellLT x none = false := by
  cases x <;> rfl

/-- When the cell at row 0 is undefined, at most `t` observations enter the
exponentially-weighted mean at row `t`. -/
theorem ewmObs_length_le (alpha : ℚ) (xs : Col) (t : ℕ)
    (h0 : (xs.get? 0).join = none) : (ewmObs alpha xs t).length ≤ t := by
  unfold ewmObs
  rw [List.range_succ_eq_map, List.filterMap_cons]
  simp only [h0, Option.map_none']
  refine le_trans (List.length_filterMap_le _ _) ?_
  simp

/-- The first one-step difference is `NaN`, so its positive part is too. -/
theorem posPart_diffCol_zero (close : Col) (hc : 0 < close.length) :
    ((posPart (diffCol close)).get? 0).join = none := by
  unfold posPart
  rw [List.get?_map]
  unfold diffCol
  rw [mapRange_get _ _ _ hc]
  rfl

theorem posPart_diffCol_length (xs : Col) :
    (posPart (diffCol xs)).length = xs.length := by
  simp [posPart, diffCol]

/-- `ewm(..., min_periods=mp)` is still `NaN` at row `t < mp` whenever row 0
contributes no observation. -/
theorem ewmMean_warmup_none (alpha : ℚ) (mp : ℕ) (xs : Col) (t : ℕ)
    (ht : t < xs.length) (h0 : (xs.get? 0).join = none) (htm : t < mp) :
    (ewmMean alpha mp xs).get? t = some none := by
  unfold ewmMean
  rw [mapRange_get _ _ _ ht]
  dsimp only
  rw [if_pos (lt_of_le_of_lt (ewmObs_length_le alpha xs t h0) htm)]

/-- The RSI over a fully defined close series is `NaN` throughout its warm-up
window: fewer than `period` differences have been observed. -/
theorem rsiCol_warmup_none (period : ℕ) (c : List ℚ) (i : ℕ)
    (hi : i < c.length) (hip : i < period) :
    (rsiCol period (c.map some)).get? i = some none := by
  have hlen : i < (posPart (diffCol ((c.map some : Col)))).length := by
    rw [posPart_diffCol_length]
    simpa using hi
  have h0 : ((posPart (diffCol ((c.map some : Col)))).get? 0).join = none :=
    posPart_diffCol_zero _ (by simpa using lt_of_le_of_lt (Nat.zero_le i) hi)
  have hew := ewmMean_warmup_none (1 / (period : ℚ)) period _ i hlen h0 hip
  unfold rsiCol
  rw [mapRange_get _ _ _ (by simpa using hi)]
  rw [hew]
  rfl

/-- Any row with an undefined cell in some column is dropped by `dropna`. -/
theorem rowKept_false_of_cell_none (f : Frame) (name : String) (col : Col) (i : ℕ)
    (hmem : (name, col) ∈ f) (hcell : (col.get? i).join = none) :
    rowKept f i = false := by
  rw [Bool.eq_false_iff]
  intro hall
  rw [rowKept, List.all_eq_true] at hall
  have hc : ((col.get? i).join).isSome = true := hall _ hmem
  rw [hcell] at hc
  exact absurd hc (by simp)

/-! #### Column lookups survive each later indicator block -/

theorem getCol_addMovingAverage_pres (sp lp tp : ℕ) (f : Frame) (name : String)
    (col : Col) (hg : getCol f name = some col) :
    getCol (addMovingAverage sp lp tp f) name = some col := by
  unfold addMovingAverage
  cases getCol f "close" with
  | none => exact hg
  | some close => exact getCol_append_left _ _ _ _ hg

theorem getCol_addRsi_pres (p : ℕ) (f : Frame) (name : String) (col : Col)
    (hg : getCol f name = some col) : getCol (addRsi p f) name = some col := by
  unfold addRsi
  cases getCol f "close" with
  | none => exact hg
  | some close => exact getCol_append_left _ _ _ _ hg

theorem getCol_addRsiDivergence_pres (p w : ℕ) (f : Frame) (name : String) (col : Col)
    (hg : getCol f name = some col) :
    getCol (addRsiDivergence p w f) name = some col := by
  unfold addRsiDivergence
  cases getCol f ("rsi" ++ toString p) with
  | none => exact hg
  | some r =>
      cases getCol f "close" with
      | none => exact hg
      | some close => exact getCol_append_left _ _ _ _ hg

theorem getCol_maybeMA_pres (cfg : StratConfig) (f : Frame) (name : String) (col : Col)
    (hg : getCol f name = some col) :
    getCol (if cfg.maEnabled = true then
        addMovingAverage cfg.shortPeriod cfg.longPeriod cfg.trendPeriod f
      else f) name = some col := by
  split
  · exact getCol_addMovingAverage_pres _ _ _ _ _ _ hg
  · exact hg

theorem getCol_rsiBlock_pres (cfg : StratConfig) (f1 : Frame) (name : String) (col : Col)
    (hg : getCol f1 name = some col) :
    getCol (if cfg.rsiEnabled = true then
        (if cfg.useDivergence = true then addRsiDivergence 14 10 (addRsi cfg.rsiPeriod f1)
         else addRsi cfg.rsiPeriod f1)
      else f1) name = some col := by
  split
  · split
    · exact getCol_addRsiDivergence_pres _ _ _ _ _ (getCol_addRsi_pres _ _ _ _ hg)
    · exact getCol_addRsi_pres _ _ _ _ hg
  · exact hg

/-! #### The RSI and volume-MA columns reach the raw pipeline output -/

theorem mem_addRsi_rsiCol (p : ℕ) (f : Frame) (close : Col)
    (hc : getCol f "close" = some close) :
    ("rsi" ++ toString p, rsiCol p close) ∈ addRsi p f := by
  unfold addRsi
  rw [hc]
  simp

theorem mem_addVolumeIndicators_vma (p : ℕ) (s : ℚ) (f : Frame) (vol close : Col)
    (hv : getCol f "volume" = some vol) (hc : getCol f "close" = some close) :
    ("volume_ma", rollingMeanC p vol) ∈ addVolumeIndicators p s f := by
  unfold addVolumeIndicators
  rw [hv, hc]
  simp

theorem mem_rsiCol_addIndicatorsRaw (cfg : StratConfig) (o h l c v : List ℚ)
    (hrsi : cfg.rsiEnabled = true) :
    ("rsi" ++ toString cfg.rsiPeriod, rsiCol cfg.rsiPeriod (c.map some))
      ∈ addIndicatorsRaw cfg (ohlcvFrame o h l c v) := by
  unfold addIndicatorsRaw
  rw [hrsi]
  simp only [eq_self_iff_true, if_true]
  have hmem1 : ("rsi" ++ toString cfg.rsiPeriod, rsiCol cfg.rsiPeriod (c.map some))
      ∈ addRsi cfg.rsiPeriod (if cfg.maEnabled = true then
          addMovingAverage cfg.shortPeriod cfg.longPeriod cfg.trendPeriod
            (ohlcvFrame o h l c v)
        else ohlcvFrame o h l c v) :=
    mem_addRsi_rsiCol _ _ _ (getCol_maybeMA_pres cfg _ _ _ (getCol_ohlcv_close o h l c v))
  split
  · apply mem_addVolumeIndicators
    split
    · exact mem_addRsiDivergence _ _ _ _ hmem1
    · exact hmem1
  · split
    · exact mem_addRsiDivergence _ _ _ _ hmem1
    · exact hmem1

theorem mem_volumeMa_addIndicatorsRaw (cfg : StratConfig) (o h l c v : List ℚ)
    (hvol : cfg.volumeEnabled = true) :
    ("volume_ma", rollingMeanC cfg.volumePeriod (v.map some))
      ∈ addIndicatorsRaw cfg (ohlcvFrame o h l c v) := by
  unfold addIndicatorsRaw
  rw [hvol]
  simp only [eq_self_iff_true, if_true]
  exact mem_addVolumeIndicators_vma _ _ _ _ _
    (getCol_rsiBlock_pres cfg _ _ _
      (getCol_maybeMA_pres cfg _ _ _ (getCol_ohlcv_volume o h l c v)))
    (getCol_rsiBlock_pres cfg _ _ _
      (getCol_maybeMA_pres cfg _ _ _ (getCol_ohlcv_close o h l c v)))

/-- With RSI (period 14) and its divergence enabled, the raw pipeline's
`rsi_divergence` column is the divergence map over close and the RSI. -/
theorem getCol_divCol_addIndicatorsRaw (cfg : StratConfig) (o h l c v : List ℚ)
    (hrsi : cfg.rsiEnabled = true) (hdiv : cfg.useDivergence = true)
    (hp : cfg.rsiPeriod = 14) :
    getCol (addIndicatorsRaw cfg (ohlcvFrame o h l c v)) "rsi_divergence"
      = some ((List.range (c.map some).length).map
          (rsiDivergenceCell (c.map some) (rsiCol 14 (c.map some)) 10)) := by
  unfold addIndicatorsRaw
  rw [hrsi, hdiv, hp]
  simp only [eq_self_iff_true, if_true]
  by_cases hmae : cfg.maEnabled = true
  · rw [hmae]
    simp only [eq_self_iff_true, if_true]
    have h1 := getCol_addMovingAverage_close cfg.shortPeriod cfg.longPeriod
      cfg.trendPeriod o h l c v
    have h2 : hasCol (addMovingAverage cfg.shortPeriod cfg.longPeriod
        cfg.trendPeriod (ohlcvFrame o h l c v)) "rsi14" = false :=
      hasCol_addMovingAverage_false _ _ _ o h l c v _
        (by simp [ohlcvFrame, hasCol]) (by decide) (by decide) (by decide)
    have h3 : hasCol (addMovingAverage cfg.shortPeriod cfg.longPeriod
        cfg.trendPeriod (ohlcvFrame o h l c v)) "rsi_divergence" = false :=
      hasCol_addMovingAverage_false _ _ _ o h l c v _
        (by simp [ohlcvFrame, hasCol]) (by decide) (by decide) (by decide)
    have hd := getCol_rsiDivergence_block c _ h1 h2 h3
    split
    · exact getCol_addVolumeIndicators _ _ _ _ _ hd
    · exact hd
  · rw [Bool.not_eq_true] at hmae
    rw [hmae]
    simp only [Bool.false_eq_true, if_false]
    have hd := getCol_rsiDivergence_block c _ (getCol_ohlcv_close o h l c v)
      (by simp [ohlcvFrame, hasCol]) (by simp [ohlcvFrame, hasCol])
    split
    · exact getCol_addVolumeIndicators _ _ _ _ _ hd
    · exact hd

/-- C8 (amended): for each modelled rolling feature — the three moving
averages, the RSI column, and the volume moving average — a bar inside the
warm-up window has a genuinely undefined feature cell and the whole row is
dropped by `dropna`, hence excluded from fusion for that row.  The
RSI-divergence signal, by contrast, is never undefined at an in-range bar,
and throughout its 14+10-bar requirement window — the first 10 bars and
every bar whose RSI look-back is still inside the RSI warm-up — it carries
the defaulted value 0 rather than an undefined cell, so the divergence
column never causes a row's exclusion. -/
theorem C8_warmup_excluded_amended (o h l c v : List ℚ) (cfg : StratConfig) (i : ℕ) :
    (cfg.maEnabled = true → i < c.length →
      (i + 1 < cfg.shortPeriod ∨ i + 1 < cfg.longPeriod ∨ i + 1 < cfg.trendPeriod) →
      rowKept (addIndicatorsRaw cfg (ohlcvFrame o h l c v)) i = false ∧
        i ∉ keptRows (addIndicatorsRaw cfg (ohlcvFrame o h l c v))) ∧
    (cfg.rsiEnabled = true → i < c.length → i < cfg.rsiPeriod →
      rowKept (addIndicatorsRaw cfg (ohlcvFrame o h l c v)) i = false ∧
        i ∉ keptRows (addIndicatorsRaw cfg (ohlcvFrame o h l c v))) ∧
    (cfg.volumeEnabled = true → i < v.length → i + 1 < cfg.volumePeriod →
      rowKept (addIndicatorsRaw cfg (ohlcvFrame o h l c v)) i = false ∧
        i ∉ keptRows (addIndicatorsRaw cfg (ohlcvFrame o h l c v))) ∧
    (cfg.rsiEnabled = true → cfg.useDivergence = true → cfg.rsiPeriod = 14 →
      i < c.length → i < 14 + 10 →
      (getCol (addIndicatorsRaw cfg (ohlcvFrame o h l c v)) "rsi_divergence").map
          (fun col => cellAtC col i) = some (some 0)) ∧
    (cfg.rsiEnabled = true → cfg.useDivergence = true → cfg.rsiPeriod = 14 →
      i < c.length →
      (getCol (addIndicatorsRaw cfg (ohlcvFrame o h l c v)) "rsi_divergence").map
          (fun col => (cellAtC col i).isSome) = some true) := by
  refine ⟨?_, ?_, ?_, ?_, ?_⟩
  · intro hma hi hwin
    have hclose := getCol_ohlcv_close o h l c v
    have hmem : ∀ (w : ℕ),
        (("ma" ++ toString w, rollingMeanC w (c.map some)) ∈
          addMovingAverage cfg.shortPeriod cfg.longPeriod cfg.trendPeriod
            (ohlcvFrame o h l c v)) →
        ("ma" ++ toString w, rollingMeanC w (c.map some)) ∈
          addIndicatorsRaw cfg (ohlcvFrame o h l c v) := by
      intro w hw
      exact mem_addIndicatorsRaw cfg _ _ hma hw
    rcases hwin with hw | hw | hw
    · have hm : ("ma" ++ toString cfg.shortPeriod,
          rollingMeanC cfg.shortPeriod (c.map some)) ∈
          addIndicatorsRaw cfg (ohlcvFrame o h l c v) := by
        apply hmem
        unfold addMovingAverage
        rw [hclose]
        simp
      have hk := rowKept_false_of_rollingMean _ _ _ _ _ hm hi hw
      exact ⟨hk, not_mem_keptRows_of_rowKept_false _ _ hk⟩
    · have hm : ("ma" ++ toString cfg.longPeriod,
          rollingMeanC cfg.longPeriod (c.map some)) ∈
          addIndicatorsRaw cfg (ohlcvFrame o h l c v) := by
        apply hmem
        unfold addMovingAverage
        rw [hclose]
        simp
      have hk := rowKept_false_of_rollingMean _ _ _ _ _ hm hi hw
      exact ⟨hk, not_mem_keptRows_of_rowKept_false _ _ hk⟩
    · have hm : ("ma" ++ toString cfg.trendPeriod,
          rollingMeanC cfg.trendPeriod (c.map some)) ∈
          addIndicatorsRaw cfg (ohlcvFrame o h l c v) := by
        apply hmem
        unfold addMovingAverage
        rw [hclose]
        simp
      have hk := rowKept_false_of_rollingMean _ _ _ _ _ hm hi hw
      exact ⟨hk, not_mem_keptRows_of_rowKept_false _ _ hk⟩
  · intro hrsi hi hip
    have hmem := mem_rsiCol_addIndicatorsRaw cfg o h l c v hrsi
    have hcell : ((rsiCol cfg.rsiPeriod (c.map some)).get? i).join = none := by
      rw [rsiCol_warmup_none cfg.rsiPeriod c i hi hip]
      rfl
    have hk := rowKept_false_of_cell_none _ _ _ _ hmem hcell
    exact ⟨hk, not_mem_keptRows_of_rowKept_false _ _ hk⟩
  · intro hvol hi hw
    have hmem := mem_volumeMa_addIndicatorsRaw cfg o h l c v hvol
    have hk := rowKept_false_of_rollingMean _ _ _ _ _ hmem hi hw
    exact ⟨hk, not_mem_keptRows_of_rowKept_false _ _ hk⟩
  · intro hrsi hdiv hp hi hiw
    rw [getCol_divCol_addIndicatorsRaw cfg o h l c v hrsi hdiv hp, Option.map_some']
    have hcell : cellAtC ((List.range (c.map some).length).map
        (rsiDivergenceCell (c.map some) (rsiCol 14 (c.map some)) 10)) i = some 0 := by
      unfold cellAtC
      rw [mapRange_get _ _ _ (by simpa using hi), join_some]
      by_cases h10 : i < 10
      · unfold rsiDivergenceCell
        rw [if_pos h10]
      · have hlb : i - 10 < 14 := by omega
        have hlb2 : i - 10 < c.length := lt_of_le_of_lt (Nat.sub_le i 10) hi
        have hrnone : cellAtC (rsiCol 14 (c.map some)) (i - 10) = none := by
          unfold cellAtC
          rw [rsiCol_warmup_none 14 c (i - 10) hlb2 hlb]
          rfl
        unfold rsiDivergenceCell
        rw [if_neg h10, hrnone, cellGT_none_right, cellLT_none_right,
          Bool.and_false, Bool.and_false]
        simp
    rw [hcell]
  · intro hrsi hdiv hp hi
    rw [getCol_divCol_addIndicatorsRaw cfg o h l c v hrsi hdiv hp, Option.map_some']
    have hcell : (cellAtC ((List.range (c.map some).length).map
        (rsiDivergenceCell (c.map some) (rsiCol 14 (c.map some)) 10)) i).isSome
          = true := by
      unfold cellAtC
      rw [mapRange_get _ _ _ (by simpa using hi), join_some]
      exact rsiDivergenceCell_isSome _ _ _ _
    rw [hcell]

/-- Witness for the amended C8: with every modelled block enabled (MA 9/21/50,
RSI 14 with divergence, volume 20) on a 15-bar series, bars 0, 5 and 2 are
inside the MA, RSI and volume warm-ups respectively and are excluded, bar 12
of the divergence window carries the defaulted 0, and bar 14's divergence
cell is defined. -/
theorem C8_warmup_excluded_amended_witness :
    rowKept (addIndicatorsRaw ⟨true, 9, 21, 50, true, 14, true, true, 20, 2⟩
        (ohlcvFrame c8 c8 c8 c8 (List.replicate 15 10))) 0 = false ∧
    rowKept (addIndicatorsRaw ⟨true, 9, 21, 50, true, 14, true, true, 20, 2⟩
        (ohlcvFrame c8 c8 c8 c8 (List.replicate 15 10))) 5 = false ∧
    rowKept (addIndicatorsRaw ⟨true, 9, 21, 50, true, 14, true, true, 20, 2⟩
        (ohlcvFrame c8 c8 c8 c8 (List.replicate 15 10))) 2 = false ∧
    (getCol (addIndicatorsRaw ⟨true, 9, 21, 50, true, 14, true, true, 20, 2⟩
        (ohlcvFrame c8 c8 c8 c8 (List.replicate 15 10))) "rsi_divergence").map
      (fun col => cellAtC col 12) = some (some 0) ∧
    (getCol (addIndicatorsRaw ⟨true, 9, 21, 50, true, 14, true, true, 20, 2⟩
        (ohlcvFrame c8 c8 c8 c8 (List.replicate 15 10))) "rsi_divergence").map
      (fun col => (cellAtC col 14).isSome) = some true :=
  ⟨((C8_warmup_excluded_amended c8 c8 c8 c8 (List.replicate 15 10)
      ⟨true, 9, 21, 50, true, 14, true, true, 20, 2⟩ 0).1 rfl (by norm_num [c8])
      (Or.inl (by norm_num))).1,
   ((C8_warmup_excluded_amended c8 c8 c8 c8 (List.replicate 15 10)
      ⟨true, 9, 21, 50, true, 14, true, true, 20, 2⟩ 5).2.1 rfl (by norm_num [c8])
      (by norm_num)).1,
   ((C8_warmup_excluded_amended c8 c8 c8 c8 (List.replicate 15 10)
      ⟨true, 9, 21, 50, true, 14, true, true, 20, 2⟩ 2).2.2.1 rfl (by simp)
      (by norm_num)).1,
   (C8_warmup_excluded_amended c8 c8 c8 c8 (List.replicate 15 10)
      ⟨true, 9, 21, 50, true, 14, true, true, 20, 2⟩ 12).2.2.2.1 rfl rfl rfl
      (by norm_num [c8]) (by norm_num),
   (C8_warmup_excluded_amended c8 c8 c8 c8 (List.replicate 15 10)
      ⟨true, 9, 21, 50, true, 14, true, true, 20, 2⟩ 14).2.2.2.2 rfl rfl rfl
      (by norm_num [c8])⟩

end Upbit
